import Mathlib

/-!
# Verification of the tournament orchestration core

Shallow embedding of the round-robin scheduler
(`src/agents/league_manager/scheduler.py`), the even/odd game logic
(`src/agents/referee_REF02/game_logic.py`), the resilience layer
(`src/agents/player_P02/resilience.py`) and the referee invitation step
(`src/agents/referee_REF01/handlers.py`), together with proofs of the
specification's testable properties about them.

Conventions: Python floats (delays, timestamps) are modelled as rationals,
Python dicts built from two distinct keys as association lists, and a
Python `Optional` as `Option`.  Network effects are modelled by passing the
outcome of each attempt (or each peer interaction) in as explicit data.
-/

namespace MCP

/-! ## Even/odd game logic (`referee_REF02/game_logic.py`) -/

/-- `MatchResult` enum from `game_logic.py`. -/
inductive MatchResult where
  | WIN
  | DRAW
  | TECHNICAL_LOSS
deriving DecidableEq

/-- `GameResult` dataclass from `game_logic.py`.  The two `Dict[str, ...]`
fields are modelled as association lists built in the order the source
builds the dict literals. -/
structure GameResult where
  status : MatchResult
  winner_player_id : Option String
  drawn_number : ℕ
  number_parity : String
  choices : List (String × Option String)
  reason : String
  scores : List (String × ℕ)
deriving DecidableEq

/-- `EvenOddGame.WIN_POINTS`. -/
def WIN_POINTS : ℕ := 3

/-- `EvenOddGame.DRAW_POINTS`. -/
def DRAW_POINTS : ℕ := 1

/-- `EvenOddGame.LOSS_POINTS`. -/
def LOSS_POINTS : ℕ := 0

/-- `EvenOddGame.get_parity`. -/
def get_parity (number : ℕ) : String :=
  if number % 2 = 0 then "even" else "odd"

/-- `EvenOddGame.determine_winner`, on the deterministic path where the
drawn number is supplied by the caller (the `drawn_number is None` branch
only draws a random number and then proceeds identically). -/
def determine_winner (player_a player_b : String) (choice_a choice_b : String)
    (drawn_number : ℕ) : GameResult :=
  let number_parity := get_parity drawn_number
  if choice_a = number_parity ∧ ¬ choice_b = number_parity then
    { status := .WIN
      winner_player_id := some player_a
      drawn_number := drawn_number
      number_parity := number_parity
      choices := [(player_a, some choice_a), (player_b, some choice_b)]
      reason := player_a ++ " chose " ++ choice_a ++ ", number was " ++
        toString drawn_number ++ " (" ++ number_parity ++ ")"
      scores := [(player_a, WIN_POINTS), (player_b, LOSS_POINTS)] }
  else if choice_b = number_parity ∧ ¬ choice_a = number_parity then
    { status := .WIN
      winner_player_id := some player_b
      drawn_number := drawn_number
      number_parity := number_parity
      choices := [(player_a, some choice_a), (player_b, some choice_b)]
      reason := player_b ++ " chose " ++ choice_b ++ ", number was " ++
        toString drawn_number ++ " (" ++ number_parity ++ ")"
      scores := [(player_a, LOSS_POINTS), (player_b, WIN_POINTS)] }
  else
    { status := .DRAW
      winner_player_id := none
      drawn_number := drawn_number
      number_parity := number_parity
      choices := [(player_a, some choice_a), (player_b, some choice_b)]
      reason := if choice_a = number_parity then
          "Both chose correctly (" ++ number_parity ++ "), number was " ++
            toString drawn_number
        else
          "Both guessed wrong, number was " ++ toString drawn_number ++
            " (" ++ number_parity ++ ")"
      scores := [(player_a, DRAW_POINTS), (player_b, DRAW_POINTS)] }

/-- `EvenOddGame.create_technical_loss`. -/
def create_technical_loss (player_a player_b losing_player reason : String) :
    GameResult :=
  let winner := if losing_player = player_a then player_b else player_a
  { status := .TECHNICAL_LOSS
    winner_player_id := some winner
    drawn_number := 0
    number_parity := "even"
    choices := [(player_a, none), (player_b, none)]
    reason := reason
    scores := [(winner, WIN_POINTS), (losing_player, LOSS_POINTS)] }

/-! ## Resilience layer (`player_P02/resilience.py`) -/

/-- Minimal model of an `httpx.Response`: only the status code matters to
the code under verification (`httpx` response objects carry no custom
truthiness, so any returned response is truthy). -/
structure Resp where
  status_code : ℕ
deriving DecidableEq

/-- Configuration fields of `RetryClient.__init__`. -/
structure RetryConfig where
  max_retries : ℕ
  backoff_strategy : String
  initial_delay : ℚ
  max_delay : ℚ
  timeout : ℚ
deriving DecidableEq

/-- The un-jittered delay computed by the first branch of
`RetryClient._calculate_delay`: `initial_delay * 2 ** attempt` for the
`"exponential"` strategy and `initial_delay * (attempt + 1)` otherwise. -/
def baseDelay (c : RetryConfig) (attempt : ℕ) : ℚ :=
  if c.backoff_strategy = "exponential" then c.initial_delay * 2 ^ attempt
  else c.initial_delay * (attempt + 1)

/-- `RetryClient._calculate_delay`.  The random draw `random.random()`
(uniform on `[0, 1)`) is passed in as the parameter `u`. -/
def _calculate_delay (c : RetryConfig) (u : ℚ) (attempt : ℕ) : ℚ :=
  let delay := baseDelay c attempt
  let jitter := delay * (1 / 4) * (u * 2 - 1)
  min (delay + jitter) c.max_delay

/-- Outcome of one attempt of the `try` block inside `RetryClient.post`:
the request either returns a response, raises `httpx.TimeoutException`,
raises `httpx.ConnectError`, or raises some other exception (the generic
`except Exception` branch). -/
inductive AttemptOutcome where
  | success (r : Resp)
  | timeout
  | connectError
  | otherError
deriving DecidableEq

/-- `true` iff the attempt returned a response. -/
def isSuccess : AttemptOutcome → Bool
  | .success _ => true
  | _ => false

/-- Observable behaviour of one `RetryClient.post` call: the value
returned, the number of attempts made, and the list of delays slept
between attempts (in order). -/
structure PostTrace where
  result : Option Resp
  attempts : ℕ
  sleeps : List ℚ
deriving DecidableEq

/-- The `for attempt in range(max_retries + 1)` loop of `RetryClient.post`,
starting at iteration `attempt` with `fuel` iterations left.  `outc k`
is the outcome of the k-th attempt and `u k` the jitter draw used if a
delay is computed after attempt `k`.  A successful attempt returns its
response at once; every exception (timeout, connection error, or any
other) falls through to the retry check `attempt < max_retries`. -/
def postFrom (c : RetryConfig) (outc : ℕ → AttemptOutcome) (u : ℕ → ℚ) :
    ℕ → ℕ → PostTrace
  | _, 0 => { result := none, attempts := 0, sleeps := [] }
  | attempt, fuel + 1 =>
    match outc attempt with
    | .success r => { result := some r, attempts := 1, sleeps := [] }
    | _ =>
      if attempt < c.max_retries then
        let t := postFrom c outc u (attempt + 1) fuel
        { result := t.result
          attempts := t.attempts + 1
          sleeps := _calculate_delay c (u attempt) attempt :: t.sleeps }
      else { result := none, attempts := 1, sleeps := [] }

/-- `RetryClient.post`: run the loop from attempt 0.  On exhaustion the
source returns `None` (it never raises). -/
def post (c : RetryConfig) (outc : ℕ → AttemptOutcome) (u : ℕ → ℚ) : PostTrace :=
  postFrom c outc u 0 (c.max_retries + 1)

/-- Concrete retry configuration used to exercise the theorems below
(`max_retries=3, exponential, initial 1s, cap 30s, timeout 10s`). -/
def cfgExp : RetryConfig :=
  { max_retries := 3, backoff_strategy := "exponential", initial_delay := 1,
    max_delay := 30, timeout := 10 }

/-- Concrete retry configuration with a single retry. -/
def cfgOne : RetryConfig :=
  { max_retries := 1, backoff_strategy := "exponential", initial_delay := 1,
    max_delay := 30, timeout := 10 }

/-- Attempt outcomes: every attempt times out. -/
def allTimeout : ℕ → AttemptOutcome := fun _ => .timeout

/-- Attempt outcomes: the first attempt fails with a non-network
application error (generic `except Exception` branch), the next returns
a response. -/
def outcAppError : ℕ → AttemptOutcome :=
  fun k => if k = 0 then .otherError else .success { status_code := 200 }

/-- Attempt outcomes: every attempt returns a 200 response. -/
def outcSucc : ℕ → AttemptOutcome := fun _ => .success { status_code := 200 }

/-- A constant jitter draw of one half (`random.random() = 0.5`, i.e. no
jitter). -/
def halfU : ℕ → ℚ := fun _ => 1 / 2

/-- `CircuitBreaker.State` enum. -/
inductive CBMode where
  | CLOSED
  | OPEN
  | HALF_OPEN
deriving DecidableEq

/-- The mutable fields of a `CircuitBreaker`, plus its configuration.
Timestamps (`datetime.utcnow()`) are modelled as rationals. -/
structure CBState where
  failure_threshold : ℕ
  recovery_timeout : ℚ
  state : CBMode
  failure_count : ℕ
  last_failure_time : Option ℚ
deriving DecidableEq

/-- `CircuitBreaker.__init__`. -/
def initCB (failure_threshold : ℕ) (recovery_timeout : ℚ) : CBState :=
  { failure_threshold := failure_threshold
    recovery_timeout := recovery_timeout
    state := .CLOSED
    failure_count := 0
    last_failure_time := none }

/-- `CircuitBreaker.can_execute`, with the current time passed in.  Returns
the boolean result together with the (possibly updated) breaker state:
in `OPEN` mode, once `recovery_timeout` seconds have elapsed since the
last failure the breaker moves to `HALF_OPEN` and the call is allowed. -/
def can_execute (now : ℚ) (s : CBState) : Bool × CBState :=
  match s.state with
  | .CLOSED => (true, s)
  | .OPEN =>
    match s.last_failure_time with
    | some t =>
      if s.recovery_timeout ≤ now - t then (true, { s with state := .HALF_OPEN })
      else (false, s)
    | none => (false, s)
  | .HALF_OPEN => (true, s)

/-- `CircuitBreaker.record_success`. -/
def record_success (s : CBState) : CBState :=
  match s.state with
  | .HALF_OPEN => { s with state := .CLOSED, failure_count := 0 }
  | .CLOSED => { s with failure_count := 0 }
  | .OPEN => s

/-- `CircuitBreaker.record_failure`, with the current time passed in.  The
counter is incremented and the timestamp refreshed before the mode is
examined, exactly as in the source. -/
def record_failure (now : ℚ) (s : CBState) : CBState :=
  let s1 := { s with failure_count := s.failure_count + 1,
                     last_failure_time := some now }
  match s1.state with
  | .HALF_OPEN => { s1 with state := .OPEN }
  | .CLOSED =>
    if s1.failure_threshold ≤ s1.failure_count then { s1 with state := .OPEN }
    else s1
  | .OPEN => s1

/-- Outcome of the inner `await self.retry_client.post(...)` call inside
`ResilientClient.post`: a response, `None` (retry exhaustion), or a
raised exception. -/
inductive SendResult where
  | ok (r : Resp)
  | nores
  | exn
deriving DecidableEq

/-- `ResilientClient.post`: consult the breaker; if it rejects, return
`None` without touching the network; otherwise run the retrying send and
record success exactly when it returned a response (of any status),
failure when it returned `None` or raised. -/
def resilientPost (now : ℚ) (s : CBState) (send : SendResult) :
    Option Resp × CBState :=
  let e := can_execute now s
  if e.1 then
    match send with
    | .ok r => (some r, record_success e.2)
    | .nores => (none, record_failure now e.2)
    | .exn => (none, record_failure now e.2)
  else (none, s)

/-! ## Referee invitation step (`referee_REF01/handlers.py`) -/

/-- Outcome of `RefereeHandlers._send_invitation` for one player, before
it is folded into the `{"accepted": bool}` dict: the player may have no
known endpoint, the request may time out or raise, or an HTTP response
may come back with a status code and (when the body parses) optional
boolean `accept` / `accepted` fields in its JSON-RPC `result`. -/
inductive InviteOutcome where
  | noEndpoint
  | timeout
  | exc
  | response (status_code : ℕ) (accept : Option Bool) (accepted : Option Bool)
deriving DecidableEq

/-- The `accepted` boolean `_send_invitation` reports for one outcome:
for a 200 response it is `result.get("accept", result.get("accepted",
True))` — note both fields absent defaults to `True`; every other outcome
reports `False`. -/
def invitationAccepted : InviteOutcome → Bool
  | .noEndpoint => false
  | .timeout => false
  | .exc => false
  | .response status_code accept accepted =>
    if status_code = 200 then accept.getD (accepted.getD true) else false

/-- Formalisation of the claim's phrase "affirmatively accepts": the
outcome is a 200 response whose result explicitly carries `accept = true`
(or the fallback field `accepted = true`). -/
def affirmsAcceptance : InviteOutcome → Bool
  | .response status_code accept accepted =>
    decide (status_code = 200) &&
      (accept == some true || accepted == some true)
  | _ => false

/-- The invitation-checking branch of `RefereeHandlers._run_match_async`
(lines 179–194): if both players' outcomes count as accepted the match
proceeds (`none`); otherwise the first non-accepting player in iteration
order (player A, then player B) is given a technical loss. -/
def invitationStep (player_a player_b : String) (oa ob : InviteOutcome) :
    Option GameResult :=
  let ra := invitationAccepted oa
  let rb := invitationAccepted ob
  if ra && rb then none
  else if !ra then
    some (create_technical_loss player_a player_b player_a
      ("Player " ++ player_a ++ " did not respond to invitation"))
  else
    some (create_technical_loss player_a player_b player_b
      ("Player " ++ player_b ++ " did not respond to invitation"))

/-! ## Round-robin scheduler (`league_manager/scheduler.py`) -/

/-- Default used by indexed list access in the embedding; every access
the scheduler performs is in range, so it is never reached. -/
def noPlayer : String := ""

/-- One rotation step of `RoundRobinScheduler.create_schedule`:
`players = [players[0]] + [players[-1]] + players[1:-1]`. -/
def rotateOnce (players : List String) : List String :=
  players.take 1 ++ players.drop (players.length - 1) ++ (players.drop 1).dropLast

/-- The guard of the inner loop of `create_schedule`:
`player_a != "BYE" and player_b != "BYE"`. -/
def byeFree (p : String × String) : Prop :=
  p.1 ≠ "BYE" ∧ p.2 ≠ "BYE"

instance : DecidablePred byeFree := fun _ => instDecidableAnd

/-- The pair `(players[i], players[n - 1 - i])` read by iteration `i` of
the inner loop of `create_schedule`. -/
def pairAt (players : List String) (i : ℕ) : String × String :=
  (players.getD i noPlayer, players.getD (players.length - 1 - i) noPlayer)

/-- One round of `create_schedule`: for `i in range(n // 2)` collect
`(players[i], players[n-1-i])`, skipping any pairing involving `"BYE"`. -/
def mkRound (players : List String) : List (String × String) :=
  (List.range (players.length / 2)).filterMap fun i =>
    if byeFree (pairAt players i) then some (pairAt players i) else none

/-- The outer `for round_num in range(num_rounds)` loop of
`create_schedule`: emit the current round, then rotate. -/
def scheduleAux : ℕ → List String → List (List (String × String))
  | 0, _ => []
  | rounds + 1, players => mkRound players :: scheduleAux rounds (rotateOnce players)

/-- `RoundRobinScheduler.create_schedule`: fewer than 2 players gives an
empty schedule; an odd count appends the `"BYE"` placeholder; then the
circle method runs for `n - 1` rounds over the working list. -/
def create_schedule (player_ids : List String) : List (List (String × String)) :=
  if player_ids.length < 2 then []
  else
    let players :=
      if player_ids.length % 2 = 1 then player_ids ++ ["BYE"] else player_ids
    scheduleAux (players.length - 1) players

/-- All pairings of a schedule, in order (the concatenation of its
rounds). -/
def allPairings (player_ids : List String) : List (String × String) :=
  (create_schedule player_ids).flatten

/-- Closed form for the rotation: after `r` rotations of a working list
of length `m + 1`, position `j` holds the player originally at position
`origIdx m r j` (position 0 is fixed; the other `m` positions cycle). -/
def origIdx (m r j : ℕ) : ℕ :=
  if j = 0 then 0 else 1 + (j - 1 + r * (m - 1)) % m

/-- Inverse of `origIdx`: after `r` rotations, the player originally at
position `k` sits at position `posIdx m r k`. -/
def posIdx (m r k : ℕ) : ℕ :=
  if k = 0 then 0 else 1 + (k - 1 + r) % m

/-- Events observable at the transport during one protocol step of a
match: a request being issued to a player, and that player's interaction
(response, error, or timeout) completing. -/
inductive ProtoEvent where
  | requestSent (player : String)
  | interactionDone (player : String)
deriving DecidableEq

/-- The event trace of awaiting one invitation/choice coroutine: under
`asyncio` semantics a bare coroutine object (not wrapped in a task) does
not start executing until it is awaited, so the HTTP request is sent at
the await point and the await returns only once the interaction is over. -/
def awaitCoroutine (player : String) : List ProtoEvent :=
  [.requestSent player, .interactionDone player]

/-- Event trace of `RefereeHandlers._send_game_invitations`: the source
stores the two bare coroutines in the dict `tasks` (insertion order:
player A, then player B) and then runs `for player_id, task in
tasks.items(): result = await task`, so the two interactions happen one
after the other. -/
def send_game_invitations_events (player_a player_b : String) : List ProtoEvent :=
  awaitCoroutine player_a ++ awaitCoroutine player_b

/-- Event trace of `RefereeHandlers._collect_choices`: identical
bare-coroutine-in-a-dict structure, awaited sequentially in insertion
order. -/
def collect_choices_events (player_a player_b : String) : List ProtoEvent :=
  awaitCoroutine player_a ++ awaitCoroutine player_b

/-! ## Theorems -/

/-- C2: for distinct players and choices in `{even, odd}`, exactly one
choice matching the drawn number's parity yields `WIN` for that player
with scores winner 3 / loser 0, and both-or-neither matching yields
`DRAW` with both scores 1; in particular `(even, odd, 8)` gives winner A
with scores `{A:3, B:0}`, `(even, odd, 7)` gives winner B,
`(even, even, 4)` and `(odd, odd, 6)` give draws with scores 1 each. -/
theorem c2_outcome_resolution (player_a player_b choice_a choice_b : String)
    (hab : player_a ≠ player_b)
    (hca : choice_a = "even" ∨ choice_a = "odd")
    (hcb : choice_b = "even" ∨ choice_b = "odd") (d : ℕ) :
    (choice_a = get_parity d → choice_b ≠ get_parity d →
      (determine_winner player_a player_b choice_a choice_b d).status = .WIN
      ∧ (determine_winner player_a player_b choice_a choice_b d).winner_player_id
          = some player_a
      ∧ (determine_winner player_a player_b choice_a choice_b d).scores
          = [(player_a, 3), (player_b, 0)])
    ∧ (choice_b = get_parity d → choice_a ≠ get_parity d →
      (determine_winner player_a player_b choice_a choice_b d).status = .WIN
      ∧ (determine_winner player_a player_b choice_a choice_b d).winner_player_id
          = some player_b
      ∧ (determine_winner player_a player_b choice_a choice_b d).scores
          = [(player_a, 0), (player_b, 3)])
    ∧ ((choice_a = get_parity d ↔ choice_b = get_parity d) →
      (determine_winner player_a player_b choice_a choice_b d).status = .DRAW
      ∧ (determine_winner player_a player_b choice_a choice_b d).winner_player_id
          = none
      ∧ (determine_winner player_a player_b choice_a choice_b d).scores
          = [(player_a, 1), (player_b, 1)])
    ∧ ((determine_winner player_a player_b "even" "odd" 8).status = .WIN
      ∧ (determine_winner player_a player_b "even" "odd" 8).winner_player_id
          = some player_a
      ∧ (determine_winner player_a player_b "even" "odd" 8).scores
          = [(player_a, 3), (player_b, 0)])
    ∧ (determine_winner player_a player_b "even" "odd" 7).winner_player_id
        = some player_b
    ∧ ((determine_winner player_a player_b "even" "even" 4).status = .DRAW
      ∧ (determine_winner player_a player_b "even" "even" 4).scores
          = [(player_a, 1), (player_b, 1)])
    ∧ (determine_winner player_a player_b "odd" "odd" 6).status = .DRAW := by
  refine ⟨?_, ?_, ?_, ?_, ?_, ?_, ?_⟩
  · intro h1 h2
    simp [determine_winner, h1, h2, WIN_POINTS, LOSS_POINTS]
  · intro h1 h2
    simp [determine_winner, h1, h2, WIN_POINTS, LOSS_POINTS]
  · intro h
    by_cases h1 : choice_a = get_parity d
    · have h2 := h.mp h1
      simp [determine_winner, h1, h2, DRAW_POINTS]
    · have h2 : ¬ choice_b = get_parity d := fun hc => h1 (h.mpr hc)
      simp [determine_winner, h1, h2, DRAW_POINTS]
  · have h8 : get_parity 8 = "even" := rfl
    simp [determine_winner, h8, WIN_POINTS, LOSS_POINTS]
  · have h7 : get_parity 7 = "odd" := rfl
    simp [determine_winner, h7]
  · have h4 : get_parity 4 = "even" := rfl
    simp [determine_winner, h4, DRAW_POINTS]
  · have h6 : get_parity 6 = "even" := rfl
    simp [determine_winner, h6]

/-- Witness for C2 at players P01, P02 with choices even/odd and drawn
number 8. -/
theorem c2_outcome_resolution_witness :
    ("P01" : String) ≠ "P02"
    ∧ (("even" : String) = "even" ∨ ("even" : String) = "odd")
    ∧ (("odd" : String) = "even" ∨ ("odd" : String) = "odd")
    ∧ ((determine_winner "P01" "P02" "even" "odd" 8).status = .WIN
      ∧ (determine_winner "P01" "P02" "even" "odd" 8).winner_player_id
          = some "P01"
      ∧ (determine_winner "P01" "P02" "even" "odd" 8).scores
          = [("P01", 3), ("P02", 0)]) :=
  ⟨by decide, Or.inl rfl, Or.inr rfl,
    (c2_outcome_resolution "P01" "P02" "even" "odd" (by decide)
      (Or.inl rfl) (Or.inr rfl) 8).2.2.2.1⟩

/-- C3: with threshold 3 the breaker stays `CLOSED` after two failures,
opens on the third and rejects while the recovery timeout has not
elapsed, then allows the check and moves to `HALF_OPEN` once it has; a
success in `HALF_OPEN` closes it and zeroes the counter, a failure
reopens it; and (invariant, over all states) only `record_success` can
move the mode to `CLOSED`, and its result then always carries a zero
failure counter. -/
theorem c3_circuit_breaker_transitions (τ t1 t2 t3 now1 now2 : ℚ)
    (hτ : 0 < τ) (h1 : now1 - t3 < τ) (h2 : τ ≤ now2 - t3) :
    (record_failure t1 (initCB 3 τ)).state = CBMode.CLOSED
    ∧ (record_failure t2 (record_failure t1 (initCB 3 τ))).state = CBMode.CLOSED
    ∧ (record_failure t3 (record_failure t2 (record_failure t1 (initCB 3 τ)))).state
        = CBMode.OPEN
    ∧ (can_execute now1
        (record_failure t3 (record_failure t2 (record_failure t1 (initCB 3 τ))))).1
        = false
    ∧ (can_execute now2
        (record_failure t3 (record_failure t2 (record_failure t1 (initCB 3 τ))))).1
        = true
    ∧ ((can_execute now2
        (record_failure t3 (record_failure t2 (record_failure t1 (initCB 3 τ))))).2).state
        = CBMode.HALF_OPEN
    ∧ (record_success ((can_execute now2
        (record_failure t3 (record_failure t2 (record_failure t1 (initCB 3 τ))))).2)).state
        = CBMode.CLOSED
    ∧ (record_success ((can_execute now2
        (record_failure t3 (record_failure t2 (record_failure t1 (initCB 3 τ))))).2)).failure_count
        = 0
    ∧ (record_failure now2 ((can_execute now2
        (record_failure t3 (record_failure t2 (record_failure t1 (initCB 3 τ))))).2)).state
        = CBMode.OPEN
    ∧ (∀ s : CBState, ∀ now : ℚ,
        (record_failure now s).state = CBMode.CLOSED → s.state = CBMode.CLOSED)
    ∧ (∀ s : CBState, ∀ now : ℚ,
        ((can_execute now s).2).state = CBMode.CLOSED → s.state = CBMode.CLOSED)
    ∧ (∀ s : CBState,
        (record_success s).state = CBMode.CLOSED →
          (record_success s).failure_count = 0) := by
  have e3 : record_failure t3 (record_failure t2 (record_failure t1 (initCB 3 τ)))
      = { failure_threshold := 3, recovery_timeout := τ, state := .OPEN,
          failure_count := 3, last_failure_time := some t3 } := rfl
  have hno : ¬ τ ≤ now1 - t3 := not_le.mpr h1
  have e4 : (can_execute now2
      (record_failure t3 (record_failure t2 (record_failure t1 (initCB 3 τ))))).2
      = { failure_threshold := 3, recovery_timeout := τ, state := .HALF_OPEN,
          failure_count := 3, last_failure_time := some t3 } := by
    rw [e3]
    simp [can_execute, h2]
  refine ⟨rfl, rfl, rfl, ?_, ?_, ?_, ?_, ?_, ?_, ?_, ?_, ?_⟩
  · rw [e3]; simp [can_execute, hno]
  · rw [e3]; simp [can_execute, h2]
  · rw [e4]
  · rw [e4]; rfl
  · rw [e4]; rfl
  · rw [e4]; rfl
  · intro s now h
    obtain ⟨ft, rt, st, fc, lt⟩ := s
    cases st
    · rfl
    · simp [record_failure] at h
    · simp [record_failure] at h
  · intro s now h
    obtain ⟨ft, rt, st, fc, lt⟩ := s
    cases st
    · rfl
    · rcases lt with _ | t
      · simp [can_execute] at h
      · by_cases hc : rt ≤ now - t <;> simp [can_execute, hc] at h
    · simp [can_execute] at h
  · intro s h
    obtain ⟨ft, rt, st, fc, lt⟩ := s
    cases st <;> simp_all [record_success]

/-- Witness for C3 with recovery timeout 30, failures at times 0, 1, 2,
and execution checks at times 5 and 40. -/
theorem c3_circuit_breaker_transitions_witness :
    (0 : ℚ) < 30 ∧ (5 : ℚ) - 2 < 30 ∧ (30 : ℚ) ≤ 40 - 2
    ∧ (record_failure 2 (record_failure 1 (record_failure 0 (initCB 3 30)))).state
        = CBMode.OPEN
    ∧ (can_execute 5
        (record_failure 2 (record_failure 1 (record_failure 0 (initCB 3 30))))).1
        = false
    ∧ (can_execute 40
        (record_failure 2 (record_failure 1 (record_failure 0 (initCB 3 30))))).1
        = true :=
  have hτ : (0 : ℚ) < 30 := by norm_num
  have hc1 : (5 : ℚ) - 2 < 30 := by norm_num
  have hc2 : (30 : ℚ) ≤ 40 - 2 := by norm_num
  have h := c3_circuit_breaker_transitions 30 0 1 2 5 40 hτ hc1 hc2
  ⟨hτ, hc1, hc2, h.2.2.1, h.2.2.2.1, h.2.2.2.2.1⟩

/-- C9: contrary to the claim (and to the source's own `# Send
invitations in parallel` comments), both protocol fan-out steps await the
two bare coroutines one after the other, so the request to player B is
only issued after player A's interaction has fully completed. -/
theorem c9_requests_are_sequential (player_a player_b : String) :
    send_game_invitations_events player_a player_b
      = [.requestSent player_a, .interactionDone player_a,
         .requestSent player_b, .interactionDone player_b]
    ∧ collect_choices_events player_a player_b
      = [.requestSent player_a, .interactionDone player_a,
         .requestSent player_b, .interactionDone player_b] :=
  ⟨rfl, rfl⟩

/-- C8: contrary to the claim (and to the `HALF_OPEN: allow one request`
comments in the source), after the breaker moves from `OPEN` to
`HALF_OPEN` a second `can_execute` check before any outcome is recorded
still returns `true`: nothing tracks the in-flight trial call. -/
theorem c8_half_open_allows_second_call :
    (can_execute 31 (record_failure 0 (record_failure 0 (record_failure 0
        (initCB 3 30))))).1 = true
    ∧ ((can_execute 31 (record_failure 0 (record_failure 0 (record_failure 0
        (initCB 3 30))))).2).state = CBMode.HALF_OPEN
    ∧ (can_execute 31 ((can_execute 31 (record_failure 0 (record_failure 0
        (record_failure 0 (initCB 3 30))))).2)).1 = true := by
  norm_num [can_execute, record_failure, initCB]

/-- If `can_execute` allows a call, the breaker state it leaves behind is
`CLOSED` or `HALF_OPEN`, never `OPEN`. -/
theorem can_execute_true_not_open (now : ℚ) (s : CBState)
    (h : (can_execute now s).1 = true) :
    (can_execute now s).2.state = CBMode.CLOSED
    ∨ (can_execute now s).2.state = CBMode.HALF_OPEN := by
  obtain ⟨ft, rt, st, fc, lt⟩ := s
  cases st
  · exact Or.inl rfl
  · rcases lt with _ | t
    · simp [can_execute] at h
    · by_cases hc : rt ≤ now - t <;> simp [can_execute, hc] at h ⊢
  · exact Or.inr rfl

/-- C10: whenever the breaker permits execution, `ResilientClient.post`
records a success on the breaker exactly when the retrying send returned
any response — whatever its status code — and records a failure exactly
when it returned `None` or raised; in particular a returned error reply
leaves the failure counter at zero. -/
theorem c10_breaker_success_iff_response (now : ℚ) (s : CBState)
    (hcan : (can_execute now s).1 = true) :
    (∀ r : Resp,
      (resilientPost now s (.ok r)).1 = some r
      ∧ (resilientPost now s (.ok r)).2 = record_success (can_execute now s).2
      ∧ (resilientPost now s (.ok r)).2.failure_count = 0)
    ∧ (resilientPost now s .nores).1 = none
    ∧ (resilientPost now s .nores).2 = record_failure now (can_execute now s).2
    ∧ (resilientPost now s .exn).1 = none
    ∧ (resilientPost now s .exn).2 = record_failure now (can_execute now s).2 := by
  have hz : (record_success (can_execute now s).2).failure_count = 0 := by
    rcases can_execute_true_not_open now s hcan with h | h <;>
      rw [record_success] <;> simp [h]
  refine ⟨fun r => ⟨?_, ?_, ?_⟩, ?_, ?_, ?_, ?_⟩ <;>
    simp [resilientPost, hcan, hz]

/-- Witness for C10 on a fresh breaker at time 0, fed a 500 reply. -/
theorem c10_breaker_success_iff_response_witness :
    (can_execute 0 (initCB 5 30)).1 = true
    ∧ (resilientPost 0 (initCB 5 30) (.ok { status_code := 500 })).1
        = some { status_code := 500 }
    ∧ (resilientPost 0 (initCB 5 30) (.ok { status_code := 500 })).2.failure_count
        = 0
    ∧ (resilientPost 0 (initCB 5 30) .nores).2
        = record_failure 0 (can_execute 0 (initCB 5 30)).2 :=
  have h := c10_breaker_success_iff_response 0 (initCB 5 30) rfl
  ⟨rfl, (h.1 { status_code := 500 }).1, (h.1 { status_code := 500 }).2.2,
    h.2.2.1⟩

/-- The retry loop makes at most `fuel` attempts. -/
theorem postFrom_attempts_le (c : RetryConfig) (outc : ℕ → AttemptOutcome)
    (u : ℕ → ℚ) :
    ∀ fuel attempt, (postFrom c outc u attempt fuel).attempts ≤ fuel := by
  intro fuel
  induction fuel with
  | zero => intro attempt; simp [postFrom]
  | succ n ih =>
    intro attempt
    rw [postFrom]
    rcases outc attempt with r | _ | _ | _
    · simp
    all_goals
      dsimp only
      split
      · exact Nat.succ_le_succ (ih (attempt + 1))
      · simp

/-- With at least one iteration left, the retry loop makes at least one
attempt. -/
theorem postFrom_attempts_pos (c : RetryConfig) (outc : ℕ → AttemptOutcome)
    (u : ℕ → ℚ) (fuel attempt : ℕ) (h : 1 ≤ fuel) :
    1 ≤ (postFrom c outc u attempt fuel).attempts := by
  rcases fuel with _ | n
  · omega
  · rw [postFrom]
    rcases outc attempt with r | _ | _ | _
    · simp
    all_goals
      dsimp only
      split
      · simp
      · simp

/-- When every remaining attempt fails, the retry loop runs all its
iterations, sleeps the computed delay after each non-final one, and
returns no response. -/
theorem postFrom_exhaust (c : RetryConfig) (outc : ℕ → AttemptOutcome)
    (u : ℕ → ℚ) :
    ∀ fuel attempt, attempt + fuel = c.max_retries + 1 →
    (∀ k, attempt ≤ k → k ≤ c.max_retries → isSuccess (outc k) = false) →
    postFrom c outc u attempt fuel =
      { result := none, attempts := fuel,
        sleeps := (List.range' attempt (fuel - 1)).map
          (fun k => _calculate_delay c (u k) k) } := by
  intro fuel
  induction fuel with
  | zero => intro attempt _ _; simp [postFrom]
  | succ n ih =>
    intro attempt hsum hfail
    have hle : attempt ≤ c.max_retries := by omega
    have hout := hfail attempt le_rfl hle
    rw [postFrom]
    rcases houtc : outc attempt with r | _ | _ | _
    · rw [houtc] at hout; simp [isSuccess] at hout
    all_goals
      dsimp only
      rcases Nat.lt_or_ge attempt c.max_retries with hcase | hcase
      · rw [if_pos hcase,
          ih (attempt + 1) (by omega) (fun k hk1 hk2 => hfail k (by omega) hk2)]
        have hn : 1 ≤ n := by omega
        have hr : List.range' attempt n
            = attempt :: List.range' (attempt + 1) (n - 1) := by
          rcases n with _ | p
          · omega
          · simp [List.range'_succ]
        simp [hr]
      · have hatt : attempt = c.max_retries := by omega
        have hn : n = 0 := by omega
        rw [if_neg (by omega)]
        simp [hn]

/-- C6: a `RetryClient.post` call with `max_retries = m` makes at most
`m + 1` attempts; and when every attempt fails it makes exactly `m + 1`
attempts, sleeps the computed backoff delay between consecutive ones
(delays for attempt indices `0 .. m-1`), and returns the distinguished
no-response value `none` instead of raising. -/
theorem c6_retry_attempt_bound (c : RetryConfig) (outc : ℕ → AttemptOutcome)
    (u : ℕ → ℚ) :
    (post c outc u).attempts ≤ c.max_retries + 1
    ∧ ((∀ k, k ≤ c.max_retries → isSuccess (outc k) = false) →
        (post c outc u).result = none
        ∧ (post c outc u).attempts = c.max_retries + 1
        ∧ (post c outc u).sleeps = (List.range c.max_retries).map
            (fun k => _calculate_delay c (u k) k)) := by
  constructor
  · exact postFrom_attempts_le c outc u (c.max_retries + 1) 0
  · intro hfail
    have h := postFrom_exhaust c outc u (c.max_retries + 1) 0 (by omega)
      (fun k _ hk2 => hfail k hk2)
    rw [post, h]
    refine ⟨rfl, rfl, ?_⟩
    simp [List.range_eq_range']

/-- Witness for C6: three timed-out attempts on top of `max_retries = 3`. -/
theorem c6_retry_attempt_bound_witness :
    (∀ k, k ≤ cfgExp.max_retries → isSuccess (allTimeout k) = false)
    ∧ (post cfgExp allTimeout halfU).attempts ≤ cfgExp.max_retries + 1
    ∧ (post cfgExp allTimeout halfU).result = none
    ∧ (post cfgExp allTimeout halfU).attempts = cfgExp.max_retries + 1
    ∧ (post cfgExp allTimeout halfU).sleeps = (List.range cfgExp.max_retries).map
        (fun k => _calculate_delay cfgExp (halfU k) k) :=
  have hfail : ∀ k, k ≤ cfgExp.max_retries → isSuccess (allTimeout k) = false :=
    fun _ _ => rfl
  have h := c6_retry_attempt_bound cfgExp allTimeout halfU
  ⟨hfail, h.1, (h.2 hfail).1, (h.2 hfail).2.1, (h.2 hfail).2.2⟩

/-- C5 counterexample: with `max_retries = 1`, an attempt that fails with
a non-network application error (the generic `except Exception` branch)
is retried: the call makes a second attempt after sleeping once, instead
of returning immediately after the first. -/
theorem c5_counterexample :
    isSuccess (outcAppError 0) = false
    ∧ outcAppError 0 ≠ AttemptOutcome.timeout
    ∧ outcAppError 0 ≠ AttemptOutcome.connectError
    ∧ (post cfgOne outcAppError halfU).attempts = 2
    ∧ ¬ (post cfgOne outcAppError halfU).attempts = 1
    ∧ (post cfgOne outcAppError halfU).sleeps.length = 1
    ∧ (post cfgOne outcAppError halfU).result = some { status_code := 200 } := by
  decide

/-- C5 (amended): only a returned HTTP response ends a `RetryClient.post`
call immediately — a response on the first attempt gives exactly one
attempt and no sleeping — while every kind of exception, including
non-network application errors, is retried after the backoff sleep
whenever retries remain. -/
theorem c5_amended_only_responses_immediate (c : RetryConfig)
    (outc : ℕ → AttemptOutcome) (u : ℕ → ℚ) :
    (∀ r : Resp, outc 0 = .success r →
      post c outc u = { result := some r, attempts := 1, sleeps := [] })
    ∧ (isSuccess (outc 0) = false → 1 ≤ c.max_retries →
        2 ≤ (post c outc u).attempts
        ∧ (post c outc u).sleeps ≠ []) := by
  constructor
  · intro r h
    rw [post, postFrom, h]
  · intro h hm
    rw [post, postFrom]
    rcases houtc : outc 0 with r | _ | _ | _
    · rw [houtc] at h; simp [isSuccess] at h
    all_goals
      dsimp only
      rw [if_pos (by omega)]
      refine ⟨?_, by simp⟩
      have := postFrom_attempts_pos c outc u c.max_retries 1 (by omega)
      simpa using this

/-- Witness for C5 (amended): an immediate 200 response, and a retried
application error under `max_retries = 1`. -/
theorem c5_amended_only_responses_immediate_witness :
    outcSucc 0 = AttemptOutcome.success { status_code := 200 }
    ∧ post cfgOne outcSucc halfU
        = { result := some { status_code := 200 }, attempts := 1, sleeps := [] }
    ∧ isSuccess (outcAppError 0) = false
    ∧ 1 ≤ cfgOne.max_retries
    ∧ 2 ≤ (post cfgOne outcAppError halfU).attempts
    ∧ (post cfgOne outcAppError halfU).sleeps ≠ [] :=
  have h1 := (c5_amended_only_responses_immediate cfgOne outcSucc halfU).1
    { status_code := 200 } rfl
  have h2 := (c5_amended_only_responses_immediate cfgOne outcAppError halfU).2
    rfl (by decide)
  ⟨rfl, h1, rfl, by decide, h2.1, h2.2⟩

/-- C7 counterexample: for the exponential strategy with `initial_delay =
1` and `max_delay = 30`, at attempt index 7 the base delay is 128, and
even with a neutral jitter draw (`u = 1/2`, zero jitter) the returned
delay is the clamped value 30, which is far below 75% of the base delay:
the returned delay does not lie within ±25% of its base. -/
theorem c7_counterexample :
    cfgExp.backoff_strategy = "exponential"
    ∧ cfgExp.initial_delay = 1
    ∧ baseDelay cfgExp 7 = 128
    ∧ (0 : ℚ) ≤ 1 / 2 ∧ (1 / 2 : ℚ) < 1
    ∧ _calculate_delay cfgExp (1 / 2) 7 = 30
    ∧ ¬ (baseDelay cfgExp 7 - baseDelay cfgExp 7 * (1 / 4)
          ≤ _calculate_delay cfgExp (1 / 2) 7) := by
  refine ⟨rfl, rfl, by norm_num [baseDelay, cfgExp], by norm_num, by norm_num,
    ?_, ?_⟩ <;>
    norm_num [baseDelay, _calculate_delay, cfgExp]

/-- C7 (amended): the un-jittered base delay is `initial_delay * 2 ^ k`
for the exponential strategy and `initial_delay * (k + 1)` for the
linear one, and successive exponential base delays with `initial_delay =
1` strictly increase; for every jitter draw the jittered value lies
within ±25% of the base delay, and the returned delay is that value
clamped to `max_delay` — hence never exceeds `max_delay`, and lies
within ±25% of the base delay whenever 75% of the base delay does not
already exceed `max_delay`. -/
theorem c7_amended_backoff_bounds (c : RetryConfig) (k : ℕ) (u : ℚ)
    (hd : 0 ≤ c.initial_delay) (hu0 : 0 ≤ u) (hu1 : u < 1) :
    (c.backoff_strategy = "exponential" →
      baseDelay c k = c.initial_delay * 2 ^ k)
    ∧ (c.backoff_strategy = "linear" →
      baseDelay c k = c.initial_delay * (k + 1))
    ∧ (c.backoff_strategy = "exponential" → c.initial_delay = 1 →
      baseDelay c k < baseDelay c (k + 1))
    ∧ _calculate_delay c u k
        = min (baseDelay c k + baseDelay c k * (1 / 4) * (u * 2 - 1)) c.max_delay
    ∧ baseDelay c k - baseDelay c k * (1 / 4)
        ≤ baseDelay c k + baseDelay c k * (1 / 4) * (u * 2 - 1)
    ∧ baseDelay c k + baseDelay c k * (1 / 4) * (u * 2 - 1)
        ≤ baseDelay c k + baseDelay c k * (1 / 4)
    ∧ _calculate_delay c u k ≤ c.max_delay
    ∧ (baseDelay c k - baseDelay c k * (1 / 4) ≤ c.max_delay →
        baseDelay c k - baseDelay c k * (1 / 4) ≤ _calculate_delay c u k
        ∧ _calculate_delay c u k ≤ baseDelay c k + baseDelay c k * (1 / 4)) := by
  have hb : 0 ≤ baseDelay c k := by
    rw [baseDelay]
    split
    · positivity
    · positivity
  have hlow : baseDelay c k - baseDelay c k * (1 / 4)
      ≤ baseDelay c k + baseDelay c k * (1 / 4) * (u * 2 - 1) := by
    nlinarith
  have hhigh : baseDelay c k + baseDelay c k * (1 / 4) * (u * 2 - 1)
      ≤ baseDelay c k + baseDelay c k * (1 / 4) := by
    nlinarith
  refine ⟨fun h => by rw [baseDelay, if_pos h],
    fun h => by rw [baseDelay, if_neg (by rw [h]; decide)],
    fun h h1 => ?_, rfl, hlow, hhigh, min_le_right _ _, fun hcap => ⟨?_, ?_⟩⟩
  · rw [baseDelay, baseDelay, if_pos h, if_pos h, h1, one_mul, one_mul, pow_succ]
    have h2 : (0 : ℚ) < 2 ^ k := by positivity
    linarith
  · exact le_min hlow hcap
  · exact le_trans (min_le_left _ _) hhigh

/-- Witness for C7 (amended) at attempt 0 of the exponential
configuration with jitter draw one half. -/
theorem c7_amended_backoff_bounds_witness :
    (0 : ℚ) ≤ cfgExp.initial_delay ∧ (0 : ℚ) ≤ 1 / 2 ∧ (1 / 2 : ℚ) < 1
    ∧ (cfgExp.backoff_strategy = "exponential" →
        baseDelay cfgExp 0 = cfgExp.initial_delay * 2 ^ 0)
    ∧ _calculate_delay cfgExp (1 / 2) 0 ≤ cfgExp.max_delay
    ∧ (baseDelay cfgExp 0 - baseDelay cfgExp 0 * (1 / 4) ≤ cfgExp.max_delay →
        baseDelay cfgExp 0 - baseDelay cfgExp 0 * (1 / 4)
          ≤ _calculate_delay cfgExp (1 / 2) 0
        ∧ _calculate_delay cfgExp (1 / 2) 0
          ≤ baseDelay cfgExp 0 + baseDelay cfgExp 0 * (1 / 4)) :=
  have hd : (0 : ℚ) ≤ cfgExp.initial_delay := zero_le_one
  have hu0 : (0 : ℚ) ≤ 1 / 2 := by norm_num
  have hu1 : (1 / 2 : ℚ) < 1 := by norm_num
  have h := c7_amended_backoff_bounds cfgExp 0 (1 / 2) hd hu0 hu1
  ⟨hd, hu0, hu1, h.1, h.2.2.2.2.2.2.1, h.2.2.2.2.2.2.2⟩

/-- C4 counterexample: a 200 response whose JSON-RPC result carries
neither an `accept` nor an `accepted` field — affirming nothing — is
nevertheless counted as an acceptance, because `_send_invitation`
defaults the missing fields to `True`. -/
theorem c4_counterexample :
    invitationAccepted (InviteOutcome.response 200 none none) = true
    ∧ affirmsAcceptance (InviteOutcome.response 200 none none) = false := by
  decide

/-- C4 (amended): an outcome counts as acceptance only if it is a 200
response whose `accept` field (or, failing that, `accepted` field) is
not `false` — absence of both defaulting to acceptance; every
non-response, error status, or explicit decline counts as
non-acceptance, and a non-accepted participant causes the match to
resolve directly to `TECHNICAL_LOSS` attributed to it (player A being
checked first), the other participant winning with `WIN_POINTS = 3` and
the failing one scoring `LOSS_POINTS = 0`, before any choice is
collected. -/
theorem c4_amended_invitation_failure (player_a player_b : String)
    (hab : player_a ≠ player_b) (oa ob : InviteOutcome) :
    (invitationAccepted .timeout = false
      ∧ invitationAccepted .exc = false
      ∧ invitationAccepted .noEndpoint = false
      ∧ (∀ sc x y, sc ≠ 200 → invitationAccepted (.response sc x y) = false)
      ∧ (∀ y, invitationAccepted (.response 200 (some false) y) = false)
      ∧ invitationAccepted (.response 200 none (some false)) = false)
    ∧ (invitationAccepted oa = false →
        ∃ g, invitationStep player_a player_b oa ob = some g
          ∧ g.status = .TECHNICAL_LOSS
          ∧ g.winner_player_id = some player_b
          ∧ g.scores = [(player_b, 3), (player_a, 0)])
    ∧ (invitationAccepted oa = true → invitationAccepted ob = false →
        ∃ g, invitationStep player_a player_b oa ob = some g
          ∧ g.status = .TECHNICAL_LOSS
          ∧ g.winner_player_id = some player_a
          ∧ g.scores = [(player_a, 3), (player_b, 0)])
    ∧ (invitationAccepted oa = true → invitationAccepted ob = true →
        invitationStep player_a player_b oa ob = none) := by
  refine ⟨⟨rfl, rfl, rfl, ?_, fun y => rfl, rfl⟩, ?_, ?_, ?_⟩
  · intro sc x y hsc
    simp [invitationAccepted, hsc]
  · intro h
    refine ⟨create_technical_loss player_a player_b player_a
        ("Player " ++ player_a ++ " did not respond to invitation"),
      ?_, rfl, ?_, ?_⟩
    · simp [invitationStep, h]
    · simp [create_technical_loss]
    · simp [create_technical_loss, WIN_POINTS, LOSS_POINTS]
  · intro ha hb
    have hba : ¬ player_b = player_a := fun hc => hab hc.symm
    refine ⟨create_technical_loss player_a player_b player_b
        ("Player " ++ player_b ++ " did not respond to invitation"),
      ?_, rfl, ?_, ?_⟩
    · simp [invitationStep, ha, hb]
    · simp [create_technical_loss, hba]
    · simp [create_technical_loss, hba, WIN_POINTS, LOSS_POINTS]
  · intro ha hb
    simp [invitationStep, ha, hb]

/-- Witness for C4 (amended): players P01/P02, P01 times out while P02
replies with an affirmative acceptance, so P01 gets the technical loss
and P02 the three points. -/
theorem c4_amended_invitation_failure_witness :
    ("P01" : String) ≠ "P02"
    ∧ invitationAccepted InviteOutcome.timeout = false
    ∧ (∃ g, invitationStep "P01" "P02" InviteOutcome.timeout
          (InviteOutcome.response 200 (some true) none) = some g
        ∧ g.status = .TECHNICAL_LOSS
        ∧ g.winner_player_id = some "P02"
        ∧ g.scores = [("P02", 3), ("P01", 0)]) :=
  have hab : ("P01" : String) ≠ "P02" := by decide
  have h := c4_amended_invitation_failure "P01" "P02" hab
    InviteOutcome.timeout (InviteOutcome.response 200 (some true) none)
  ⟨hab, rfl, h.2.1 rfl⟩

/-! ### Scheduler: rotation and position bookkeeping -/

/-- Rotation preserves the length of a working list of at least two
players. -/
theorem length_rotateOnce (w : List String) (h2 : 2 ≤ w.length) :
    (rotateOnce w).length = w.length := by
  simp [rotateOnce]
  omega

/-- Index formula for one rotation: position 0 is fixed, position 1
receives the last player, and every later position receives its left
neighbour. -/
theorem getD_rotateOnce (w : List String) (h2 : 2 ≤ w.length) (j : ℕ)
    (hj : j < w.length) :
    (rotateOnce w).getD j noPlayer =
      if j = 0 then w.getD 0 noPlayer
      else if j = 1 then w.getD (w.length - 1) noPlayer
      else w.getD (j - 1) noPlayer := by
  have hA : (w.take 1).length = 1 := by rw [List.length_take]; omega
  have hB : (w.drop (w.length - 1)).length = 1 := by rw [List.length_drop]; omega
  have hAB : (w.take 1 ++ w.drop (w.length - 1)).length = 2 := by
    rw [List.length_append, hA, hB]
  rw [rotateOnce, List.getD_eq_getElem?_getD, List.getElem?_append, hAB]
  by_cases hj0 : j = 0
  · subst hj0
    rw [if_pos rfl, if_pos (by omega), List.getElem?_append, hA,
      if_pos (by omega), List.getElem?_take, if_pos (by omega),
      List.getD_eq_getElem?_getD]
  · by_cases hj1 : j = 1
    · subst hj1
      rw [if_pos (by omega), List.getElem?_append, hA, if_neg (by omega),
        Nat.sub_self, List.getElem?_drop, Nat.add_zero,
        if_neg (by omega), if_pos rfl, List.getD_eq_getElem?_getD]
    · rw [if_neg hj0, if_neg hj1, if_neg (by omega),
        List.dropLast_eq_take, List.getElem?_take, List.length_drop,
        if_pos (by omega), List.getElem?_drop,
        show 1 + (j - 2) = j - 1 by omega, List.getD_eq_getElem?_getD]

/-- Iterated rotation preserves length. -/
theorem length_iterate_rotateOnce (w : List String) (h2 : 2 ≤ w.length)
    (r : ℕ) : (rotateOnce^[r] w).length = w.length := by
  induction r with
  | zero => rfl
  | succ p ih =>
    rw [Function.iterate_succ_apply', length_rotateOnce _ (by omega), ih]

/-- `origIdx` stays inside the working list. -/
theorem origIdx_lt (m r j : ℕ) (hm : 1 ≤ m) : origIdx m r j < m + 1 := by
  rw [origIdx]
  split
  · omega
  · have := Nat.mod_lt (j - 1 + r * (m - 1)) (y := m) (by omega)
    omega

/-- `posIdx` stays inside the working list. -/
theorem posIdx_lt (m r k : ℕ) (hm : 1 ≤ m) : posIdx m r k < m + 1 := by
  rw [posIdx]
  split
  · omega
  · have := Nat.mod_lt (k - 1 + r) (y := m) (by omega)
    omega

/-- `origIdx` after `posIdx` is the identity on valid indices. -/
theorem origIdx_posIdx (m r k : ℕ) (hm : 1 ≤ m) (hk : k < m + 1) :
    origIdx m r (posIdx m r k) = k := by
  rcases Nat.eq_zero_or_pos k with rfl | hkpos
  · rw [posIdx, origIdx]; simp
  · rw [posIdx, if_neg (by omega), origIdx, if_neg (by omega)]
    have h1 : 1 + (k - 1 + r) % m - 1 = (k - 1 + r) % m := by omega
    rw [h1, Nat.mod_add_mod]
    have h2 : k - 1 + r + r * (m - 1) = k - 1 + r * m := by
      obtain ⟨m1, rfl⟩ : ∃ m1, m = m1 + 1 := ⟨m - 1, by omega⟩
      simp [Nat.mul_succ]
      ring
    rw [h2, Nat.add_mul_mod_self_right, Nat.mod_eq_of_lt (by omega)]
    omega

/-- `posIdx` after `origIdx` is the identity on valid indices. -/
theorem posIdx_origIdx (m r j : ℕ) (hm : 1 ≤ m) (hj : j < m + 1) :
    posIdx m r (origIdx m r j) = j := by
  rcases Nat.eq_zero_or_pos j with rfl | hjpos
  · rw [origIdx, posIdx]; simp
  · rw [origIdx, if_neg (by omega), posIdx, if_neg (by omega)]
    have h1 : 1 + (j - 1 + r * (m - 1)) % m - 1 = (j - 1 + r * (m - 1)) % m := by
      omega
    rw [h1, Nat.mod_add_mod]
    have h2 : j - 1 + r * (m - 1) + r = j - 1 + r * m := by
      obtain ⟨m1, rfl⟩ : ∃ m1, m = m1 + 1 := ⟨m - 1, by omega⟩
      simp [Nat.mul_succ]
      ring
    rw [h2, Nat.add_mul_mod_self_right, Nat.mod_eq_of_lt (by omega)]
    omega

/-- `posIdx` is injective on valid indices. -/
theorem posIdx_inj (m r : ℕ) {k k' : ℕ} (hm : 1 ≤ m) (hk : k < m + 1)
    (hk' : k' < m + 1) (h : posIdx m r k = posIdx m r k') : k = k' := by
  have := congrArg (origIdx m r) h
  rwa [origIdx_posIdx m r k hm hk, origIdx_posIdx m r k' hm hk'] at this

/-- `origIdx` characterised through `posIdx`. -/
theorem origIdx_eq_iff (m r j k : ℕ) (hm : 1 ≤ m) (hj : j < m + 1)
    (hk : k < m + 1) : origIdx m r j = k ↔ j = posIdx m r k := by
  constructor
  · intro h
    rw [← h, posIdx_origIdx m r j hm hj]
  · intro h
    rw [h, origIdx_posIdx m r k hm hk]

/-- Index formula for iterated rotation: after `r` rotations position
`j` holds the player originally at `origIdx (w.length - 1) r j`. -/
theorem getD_iterate_rotateOnce (w : List String) (h2 : 2 ≤ w.length) :
    ∀ r j, j < w.length →
      (rotateOnce^[r] w).getD j noPlayer
        = w.getD (origIdx (w.length - 1) r j) noPlayer := by
  intro r
  induction r with
  | zero =>
    intro j hj
    rw [Function.iterate_zero_apply, origIdx]
    split
    · simp_all
    · rw [Nat.mod_eq_of_lt (by omega)]
      congr 1
      omega
  | succ p ih =>
    intro j hj
    rw [Function.iterate_succ_apply',
      getD_rotateOnce _ (by rw [length_iterate_rotateOnce w h2]; omega) j
        (by rw [length_iterate_rotateOnce w h2]; omega),
      length_iterate_rotateOnce w h2]
    rcases Nat.eq_zero_or_pos j with rfl | hjpos
    · rw [if_pos rfl, ih 0 (by omega)]
      rw [origIdx, origIdx]
      simp
    · rcases Nat.lt_or_ge j 2 with hj1 | hj2
      · have hj1' : j = 1 := by omega
        subst hj1'
        rw [if_neg (by omega), if_pos rfl, ih (w.length - 1) (by omega)]
        congr 1
        rw [origIdx, origIdx, if_neg (by omega), if_neg (by omega)]
        congr 2
        have hx : (p + 1) * (w.length - 1 - 1)
            = p * (w.length - 1 - 1) + (w.length - 1 - 1) := by ring
        rw [hx]
        generalize p * (w.length - 1 - 1) = A
        omega
      · rw [if_neg (by omega), if_neg (by omega), ih (j - 1) (by omega)]
        congr 1
        rw [origIdx, origIdx, if_neg (by omega), if_neg (by omega)]
        congr 1
        set m := w.length - 1 with hm
        have hm1 : 1 ≤ m := by omega
        have h1 : j - 1 + (p + 1) * (m - 1) = j - 1 - 1 + p * (m - 1) + m := by
          have h2 : (p + 1) * (m - 1) = p * (m - 1) + (m - 1) := by ring
          rw [h2]
          generalize p * (m - 1) = A
          omega
        rw [h1, Nat.add_mod_right]

/-- The schedule is, round by round, `mkRound` of the iterated rotation. -/
theorem scheduleAux_eq_map (R : ℕ) :
    ∀ w, scheduleAux R w
      = (List.range R).map (fun r => mkRound (rotateOnce^[r] w)) := by
  induction R with
  | zero => intro w; rfl
  | succ p ih =>
    intro w
    have htail :
        List.map (fun r => mkRound (rotateOnce^[r] (rotateOnce w))) (List.range p)
          = List.map ((fun r => mkRound (rotateOnce^[r] w)) ∘ Nat.succ)
              (List.range p) := by
      apply List.map_congr_left
      intro r _
      show mkRound (rotateOnce^[r] (rotateOnce w)) = mkRound (rotateOnce^[r + 1] w)
      rw [Function.iterate_succ_apply]
    rw [scheduleAux, ih (rotateOnce w), htail, List.range_succ_eq_map,
      List.map_cons, List.map_map, Function.iterate_zero_apply]

/-- A guarded `filterMap` is a `filter` after a `map`. -/
theorem filterMap_if_eq_filter_map {α β : Type} (f : α → β) (q : β → Prop)
    [DecidablePred q] (l : List α) :
    l.filterMap (fun x => if q (f x) then some (f x) else none)
      = (l.map f).filter (fun y => decide (q y)) := by
  induction l with
  | nil => rfl
  | cons x xs ih =>
    rw [List.filterMap_cons, List.map_cons, List.filter_cons]
    by_cases h : q (f x)
    · rw [if_pos h, if_pos (by simpa using h), ih]
    · rw [if_neg h, if_neg (by simpa using h), ih]

/-- `mkRound` as a filtered list of position pairs. -/
theorem mkRound_eq_filter (players : List String) :
    mkRound players
      = ((List.range (players.length / 2)).map (pairAt players)).filter
          (fun p => decide (byeFree p)) :=
  filterMap_if_eq_filter_map (pairAt players) byeFree _

/-- The pair read at position `i` of round `r` in terms of the original
working list. -/
theorem pairAt_iterate (w : List String) (h2 : 2 ≤ w.length) (r i : ℕ)
    (hi : i < w.length) :
    pairAt (rotateOnce^[r] w) i
      = (w.getD (origIdx (w.length - 1) r i) noPlayer,
        w.getD (origIdx (w.length - 1) r (w.length - 1 - i)) noPlayer) := by
  rw [pairAt, length_iterate_rotateOnce w h2,
    getD_iterate_rotateOnce w h2 r i hi,
    getD_iterate_rotateOnce w h2 r (w.length - 1 - i) (by omega)]

/-- A count over `range k` with a unique satisfying index is 1. -/
theorem countP_range_eq_one {p : ℕ → Bool} {k i0 : ℕ} (hik : i0 < k)
    (hp : p i0 = true) (hu : ∀ j, j < k → p j = true → j = i0) :
    (List.range k).countP p = 1 := by
  rw [List.countP_eq_length_filter]
  have hmem : ∀ x, x ∈ (List.range k).filter p ↔ x = i0 := by
    intro x
    rw [List.mem_filter, List.mem_range]
    constructor
    · rintro ⟨ha, hb⟩
      exact hu x ha hb
    · rintro rfl
      exact ⟨hik, hp⟩
  have hnd : ((List.range k).filter p).Nodup := (List.nodup_range k).filter p
  rcases hl : (List.range k).filter p with _ | ⟨y, ys⟩
  · exfalso
    have := (hmem i0).mpr rfl
    rw [hl] at this
    simp at this
  · rw [hl] at hmem hnd
    have hy : y = i0 := (hmem y).mp (by simp)
    rcases ys with _ | ⟨z, zs⟩
    · rfl
    · exfalso
      have hz : z = i0 := (hmem z).mp (by simp)
      rw [hy, hz] at hnd
      simp at hnd

/-- A count over `range k` with no satisfying index is 0. -/
theorem countP_range_eq_zero {p : ℕ → Bool} {k : ℕ}
    (h : ∀ j, j < k → p j = false) : (List.range k).countP p = 0 := by
  rw [List.countP_eq_zero]
  intro a ha
  rw [List.mem_range] at ha
  simp [h a ha]

/-- Counting a predicate and its negation over a list covers it. -/
theorem countP_add_countP_not {α : Type} (p : α → Bool) (l : List α) :
    l.countP p + l.countP (fun a => !(p a)) = l.length := by
  induction l with
  | nil => rfl
  | cons x xs ih =>
    by_cases h : p x = true
    · rw [List.countP_cons_of_pos _ _ h,
        List.countP_cons_of_neg _ _ (by simp [h]), List.length_cons]
      omega
    · rw [List.countP_cons_of_neg _ _ (by simp_all),
        List.countP_cons_of_pos _ _ (by simp_all), List.length_cons]
      omega

/-- Sum over `range m` of a function that is 1 at a unique point and 0
elsewhere. -/
theorem sum_map_range_eq_one (g : ℕ → ℕ) :
    ∀ m r0, r0 < m → g r0 = 1 → (∀ r, r < m → r ≠ r0 → g r = 0) →
      ((List.range m).map g).sum = 1 := by
  intro m
  induction m with
  | zero => intro r0 h0 _ _; omega
  | succ p ih =>
    intro r0 h0 h1 hz
    rw [List.range_succ, List.map_append, List.sum_append]
    rcases Nat.lt_or_ge r0 p with hc | hc
    · rw [ih r0 hc h1 (fun r hr hne => hz r (by omega) hne)]
      have hgp : g p = 0 := hz p (by omega) (by omega)
      simp [hgp]
    · have hr0 : r0 = p := by omega
      rw [hr0] at h1
      have hzero : ((List.range p).map g).sum = 0 := by
        apply List.sum_eq_zero
        intro x hx
        rw [List.mem_map] at hx
        obtain ⟨r, hr, rfl⟩ := hx
        rw [List.mem_range] at hr
        exact hz r (by omega) (by omega)
      rw [hzero]
      simp [h1]

/-- Sum over `range m` of a constant function. -/
theorem sum_map_range_const (g : ℕ → ℕ) (c : ℕ) :
    ∀ m, (∀ r, r < m → g r = c) → ((List.range m).map g).sum = m * c := by
  intro m
  induction m with
  | zero => intro _; simp
  | succ p ih =>
    intro h
    rw [List.range_succ, List.map_append, List.sum_append,
      ih (fun r hr => h r (by omega)), Nat.succ_mul]
    simp [h p (by omega)]

/-- Sum over `range m` of a function that is 0 at a unique point and 1
elsewhere. -/
theorem sum_map_range_pred (g : ℕ → ℕ) :
    ∀ m r0, r0 < m → g r0 = 0 → (∀ r, r < m → r ≠ r0 → g r = 1) →
      ((List.range m).map g).sum = m - 1 := by
  intro m
  induction m with
  | zero => intro r0 h0 _ _; omega
  | succ p ih =>
    intro r0 h0 h1 hz
    rw [List.range_succ, List.map_append, List.sum_append]
    rcases Nat.lt_or_ge r0 p with hc | hc
    · rw [ih r0 hc h1 (fun r hr hne => hz r (by omega) hne)]
      have hgp : g p = 1 := hz p (by omega) (by omega)
      simp [hgp]
      omega
    · have hr0 : r0 = p := by omega
      rw [hr0] at h1
      have hone : ((List.range p).map g).sum = p * 1 := by
        apply sum_map_range_const
        intro r hr
        exact hz r (by omega) (by omega)
      rw [hone]
      simp [h1]

/-- Distinct positions of a duplicate-free working list hold distinct
players. -/
theorem getD_inj_of_nodup {w : List String} (hnd : w.Nodup) {j k : ℕ}
    (hj : j < w.length) (hk : k < w.length)
    (h : w.getD j noPlayer = w.getD k noPlayer) : j = k := by
  rw [List.getD_eq_getElem w noPlayer hj, List.getD_eq_getElem w noPlayer hk] at h
  exact (List.Nodup.getElem_inj_iff hnd).mp h

/-- Valid positions hold members of the working list. -/
theorem getD_mem_of_lt {w : List String} {j : ℕ} (hj : j < w.length) :
    w.getD j noPlayer ∈ w := by
  rw [List.getD_eq_getElem w noPlayer hj]
  exact List.getElem_mem hj

/-- For `t, c < m` there is exactly one `r < m` with `(t + r) % m = c`. -/
theorem mod_shift_solve (m t c : ℕ) (hm : 0 < m) (ht : t < m) (hc : c < m) :
    ∃ r0, r0 < m ∧ (t + r0) % m = c ∧
      ∀ r, r < m → (t + r) % m = c → r = r0 := by
  refine ⟨(c + (m - t)) % m, Nat.mod_lt _ hm, ?_, ?_⟩
  · rw [Nat.add_mod_mod, show t + (c + (m - t)) = c + m by omega,
      Nat.add_mod_right, Nat.mod_eq_of_lt hc]
  · intro r hr heq
    have heq0 : (t + ((c + (m - t)) % m)) % m = c := by
      rw [Nat.add_mod_mod, show t + (c + (m - t)) = c + m by omega,
        Nat.add_mod_right, Nat.mod_eq_of_lt hc]
    have hmodeq : (t + r) % m = (t + ((c + (m - t)) % m)) % m := by
      rw [heq, heq0]
    have hcancel := Nat.ModEq.add_left_cancel' t hmodeq
    rw [Nat.ModEq, Nat.mod_eq_of_lt hr,
      Nat.mod_eq_of_lt (Nat.mod_lt _ hm)] at hcancel
    exact hcancel

/-- Doubling is injective modulo an odd modulus. -/
theorem two_mul_mod_injective (m : ℕ) (hodd : m % 2 = 1) {r r' : ℕ}
    (hr : r < m) (hr' : r' < m) (h : (2 * r) % m = (2 * r') % m) : r = r' := by
  have hg : m.gcd 2 = 1 := by
    rw [Nat.gcd_comm, Nat.gcd_rec, hodd]
    rfl
  have hcancel : r ≡ r' [MOD m] := Nat.ModEq.cancel_left_of_coprime hg h
  rwa [Nat.ModEq, Nat.mod_eq_of_lt hr, Nat.mod_eq_of_lt hr'] at hcancel

/-- Every residue is a double modulo an odd modulus. -/
theorem two_mul_mod_exists (m c : ℕ) (hodd : m % 2 = 1) (hc : c < m) :
    ∃ r, r < m ∧ (2 * r) % m = c := by
  by_cases h : c % 2 = 0
  · refine ⟨c / 2, by omega, ?_⟩
    rw [show 2 * (c / 2) = c by omega, Nat.mod_eq_of_lt hc]
  · refine ⟨(c + m) / 2, by omega, ?_⟩
    rw [show 2 * ((c + m) / 2) = c + m by omega, Nat.add_mod_right,
      Nat.mod_eq_of_lt hc]

/-- Two positions at distinct labels `s ≠ t` sit at complementary
positions (`sum = m - 2` over the moving cycle) exactly when
`s + t + 2r ≡ m - 2 (mod m)`. -/
theorem mod_sum_pair (m s t r : ℕ) (hm : 0 < m) (hs : s < m) (ht : t < m)
    (hst : s ≠ t) :
    ((s + r) % m + (t + r) % m = m - 2)
      ↔ ((s + t + 2 * r) % m = (m - 2) % m) := by
  have he : s + t + 2 * r = (s + r) + (t + r) := by omega
  constructor
  · intro h
    rw [he, Nat.add_mod, h]
  · intro h
    have hu : (s + r) % m < m := Nat.mod_lt _ hm
    have hv : (t + r) % m < m := Nat.mod_lt _ hm
    have huv : ((s + r) % m + (t + r) % m) % m = (m - 2) % m := by
      rw [← Nat.add_mod, ← he, h]
    have hm2 : (m - 2) % m = m - 2 := Nat.mod_eq_of_lt (by omega)
    have hdm := Nat.div_add_mod ((s + r) % m + (t + r) % m) m
    have hq : ((s + r) % m + (t + r) % m) / m ≤ 1 := by
      by_contra hq2
      push_neg at hq2
      have hmul : m * 2 ≤ m * (((s + r) % m + (t + r) % m) / m) :=
        Nat.mul_le_mul_left m hq2
      omega
    rcases Nat.le_one_iff_eq_zero_or_eq_one.mp hq with h0 | h01
    · rw [h0] at hdm
      omega
    · rw [h01] at hdm
      have hboth : (s + r) % m = m - 1 ∧ (t + r) % m = m - 1 := by omega
      have heq2 : (s + r) % m = (t + r) % m := by omega
      have hcancel := Nat.ModEq.add_right_cancel' r heq2
      rw [Nat.ModEq, Nat.mod_eq_of_lt hs, Nat.mod_eq_of_lt ht] at hcancel
      exact absurd hcancel hst

/-- For an odd number `m` of rotations and two distinct valid indices,
there is exactly one round in which their positions are complementary
(sum to `m`), i.e. in which they are paired by the circle method. -/
theorem exists_unique_pair_round (m ia ib : ℕ) (hm : m % 2 = 1)
    (hia : ia < m + 1) (hib : ib < m + 1) (hne : ia ≠ ib) :
    ∃ r0, r0 < m ∧ (posIdx m r0 ia + posIdx m r0 ib = m) ∧
      ∀ r, r < m → posIdx m r ia + posIdx m r ib = m → r = r0 := by
  have hm1 : 1 ≤ m := by omega
  rcases Nat.eq_zero_or_pos ia with rfl | hiapos
  · -- ia = 0: need posIdx m r ib = m, i.e. (ib - 1 + r) % m = m - 1
    have hibpos : 1 ≤ ib := by omega
    have hcond : ∀ r, (posIdx m r 0 + posIdx m r ib = m
        ↔ (ib - 1 + r) % m = m - 1) := by
      intro r
      rw [posIdx, if_pos rfl, posIdx, if_neg (by omega)]
      have := Nat.mod_lt (ib - 1 + r) (y := m) (by omega)
      omega
    obtain ⟨r0, hr0, heq, huniq⟩ :=
      mod_shift_solve m (ib - 1) (m - 1) (by omega) (by omega) (by omega)
    exact ⟨r0, hr0, (hcond r0).mpr heq,
      fun r hr h => huniq r hr ((hcond r).mp h)⟩
  · rcases Nat.eq_zero_or_pos ib with rfl | hibpos
    · -- ib = 0: symmetric
      have hcond : ∀ r, (posIdx m r ia + posIdx m r 0 = m
          ↔ (ia - 1 + r) % m = m - 1) := by
        intro r
        rw [posIdx, if_neg (by omega), posIdx, if_pos rfl]
        have := Nat.mod_lt (ia - 1 + r) (y := m) (by omega)
        omega
      obtain ⟨r0, hr0, heq, huniq⟩ :=
        mod_shift_solve m (ia - 1) (m - 1) (by omega) (by omega) (by omega)
      exact ⟨r0, hr0, (hcond r0).mpr heq,
        fun r hr h => huniq r hr ((hcond r).mp h)⟩
    · -- both moving: labels s = ia - 1, t = ib - 1
      have hm3 : 2 ≤ m := by omega
      have hs : ia - 1 < m := by omega
      have ht : ib - 1 < m := by omega
      have hst : ia - 1 ≠ ib - 1 := by omega
      have hcond : ∀ r, (posIdx m r ia + posIdx m r ib = m
          ↔ ((ia - 1 + r) % m + (ib - 1 + r) % m = m - 2)) := by
        intro r
        rw [posIdx, if_neg (by omega), posIdx, if_neg (by omega)]
        have h1 := Nat.mod_lt (ia - 1 + r) (y := m) (by omega)
        have h2 := Nat.mod_lt (ib - 1 + r) (y := m) (by omega)
        omega
      -- reduce to 2r ≡ c (mod m) with c the target residue
      have hcc : ((ia - 1) + (ib - 1)
          + ((m - 2 + ((m - (ia - 1)) + (m - (ib - 1)))) % m)) % m
          = (m - 2) % m := by
        rw [Nat.add_mod_mod,
          show (ia - 1) + (ib - 1) + (m - 2 + ((m - (ia - 1)) + (m - (ib - 1))))
            = (m - 2) + 2 * m by omega,
          Nat.add_mul_mod_self_right]
      set c := (m - 2 + ((m - (ia - 1)) + (m - (ib - 1)))) % m with hcdef
      have hclt : c < m := Nat.mod_lt _ (by omega)
      have hbridge : ∀ r, (((ia - 1) + (ib - 1) + 2 * r) % m = (m - 2) % m
          ↔ (2 * r) % m = c) := by
        intro r
        constructor
        · intro h
          have hmodeq : ((ia - 1) + (ib - 1) + 2 * r) % m
              = ((ia - 1) + (ib - 1) + c) % m := by
            rw [h, ← hcc]
          have h2 := Nat.ModEq.add_left_cancel' ((ia - 1) + (ib - 1)) hmodeq
          rwa [Nat.ModEq, Nat.mod_eq_of_lt hclt] at h2
        · intro h
          rw [← Nat.add_mod_mod, h]
          exact hcc
      obtain ⟨r0, hr0, heq⟩ := two_mul_mod_exists m c hm hclt
      refine ⟨r0, hr0, ?_, ?_⟩
      · rw [hcond r0, mod_sum_pair m (ia - 1) (ib - 1) r0 (by omega) hs ht hst]
        exact (hbridge r0).mpr heq
      · intro r hr h
        rw [hcond r, mod_sum_pair m (ia - 1) (ib - 1) r (by omega) hs ht hst]
          at h
        have h2 := (hbridge r).mp h
        exact two_mul_mod_injective m hm hr hr0 (h2.trans heq.symm)

/-- In a single round, the unordered pair of the players at valid
indices `ia, ib` of an even duplicate-free non-`BYE` working list occurs
exactly once if the two current positions are complementary, and not at
all otherwise. -/
theorem round_pair_count (w : List String) (h2 : 2 ≤ w.length)
    (he : w.length % 2 = 0) (hnd : w.Nodup) (ia ib : ℕ)
    (hia : ia < w.length) (hib : ib < w.length) (hne : ia ≠ ib)
    (hba : w.getD ia noPlayer ≠ "BYE") (hbb : w.getD ib noPlayer ≠ "BYE")
    (r : ℕ) :
    (mkRound (rotateOnce^[r] w)).countP
        (fun p => decide (p = (w.getD ia noPlayer, w.getD ib noPlayer)
          ∨ p = (w.getD ib noPlayer, w.getD ia noPlayer)))
      = if posIdx (w.length - 1) r ia + posIdx (w.length - 1) r ib
          = w.length - 1 then 1 else 0 := by
  have hm1 : 1 ≤ w.length - 1 := by omega
  have hja := posIdx_lt (w.length - 1) r ia hm1
  have hjb := posIdx_lt (w.length - 1) r ib hm1
  have hjab : posIdx (w.length - 1) r ia ≠ posIdx (w.length - 1) r ib :=
    fun h => hne (posIdx_inj (w.length - 1) r hm1 (by omega) (by omega) h)
  rw [mkRound_eq_filter, List.countP_filter, List.countP_map,
    length_iterate_rotateOnce w h2]
  have hmain : ∀ i, i < w.length / 2 →
      (((fun p => decide (p = (w.getD ia noPlayer, w.getD ib noPlayer)
            ∨ p = (w.getD ib noPlayer, w.getD ia noPlayer))
          && decide (byeFree p)) ∘ pairAt (rotateOnce^[r] w)) i = true
        ↔ (posIdx (w.length - 1) r ia + posIdx (w.length - 1) r ib
              = w.length - 1
            ∧ i = min (posIdx (w.length - 1) r ia)
                (posIdx (w.length - 1) r ib))) := by
    intro i hi
    have hin : i < w.length := by omega
    have e1 : (w.getD (origIdx (w.length - 1) r i) noPlayer
        = w.getD ia noPlayer) ↔ i = posIdx (w.length - 1) r ia := by
      constructor
      · intro h
        exact (origIdx_eq_iff _ r i ia hm1 (by omega) (by omega)).mp
          (getD_inj_of_nodup hnd
            (by have := origIdx_lt (w.length - 1) r i hm1; omega) hia h)
      · intro h
        rw [(origIdx_eq_iff _ r i ia hm1 (by omega) (by omega)).mpr h]
    have e2 : (w.getD (origIdx (w.length - 1) r i) noPlayer
        = w.getD ib noPlayer) ↔ i = posIdx (w.length - 1) r ib := by
      constructor
      · intro h
        exact (origIdx_eq_iff _ r i ib hm1 (by omega) (by omega)).mp
          (getD_inj_of_nodup hnd
            (by have := origIdx_lt (w.length - 1) r i hm1; omega) hib h)
      · intro h
        rw [(origIdx_eq_iff _ r i ib hm1 (by omega) (by omega)).mpr h]
    have e3 : (w.getD (origIdx (w.length - 1) r (w.length - 1 - i)) noPlayer
        = w.getD ia noPlayer)
        ↔ w.length - 1 - i = posIdx (w.length - 1) r ia := by
      constructor
      · intro h
        exact (origIdx_eq_iff _ r (w.length - 1 - i) ia hm1 (by omega)
          (by omega)).mp
          (getD_inj_of_nodup hnd
            (by have := origIdx_lt (w.length - 1) r (w.length - 1 - i) hm1
                omega) hia h)
      · intro h
        rw [(origIdx_eq_iff _ r (w.length - 1 - i) ia hm1 (by omega)
          (by omega)).mpr h]
    have e4 : (w.getD (origIdx (w.length - 1) r (w.length - 1 - i)) noPlayer
        = w.getD ib noPlayer)
        ↔ w.length - 1 - i = posIdx (w.length - 1) r ib := by
      constructor
      · intro h
        exact (origIdx_eq_iff _ r (w.length - 1 - i) ib hm1 (by omega)
          (by omega)).mp
          (getD_inj_of_nodup hnd
            (by have := origIdx_lt (w.length - 1) r (w.length - 1 - i) hm1
                omega) hib h)
      · intro h
        rw [(origIdx_eq_iff _ r (w.length - 1 - i) ib hm1 (by omega)
          (by omega)).mpr h]
    simp only [Function.comp_apply, Bool.and_eq_true, decide_eq_true_eq]
    rw [pairAt_iterate w h2 r i hin]
    simp only [Prod.mk.injEq]
    constructor
    · rintro ⟨hpq, _⟩
      rcases hpq with ⟨ha1, ha2⟩ | ⟨hb1, hb2⟩
      · rw [e1] at ha1
        rw [e4] at ha2
        omega
      · rw [e2] at hb1
        rw [e3] at hb2
        omega
    · rintro ⟨hE, hmin⟩
      have hdisj : (i = posIdx (w.length - 1) r ia
            ∧ w.length - 1 - i = posIdx (w.length - 1) r ib)
          ∨ (i = posIdx (w.length - 1) r ib
            ∧ w.length - 1 - i = posIdx (w.length - 1) r ia) := by omega
      rcases hdisj with ⟨hd1, hd2⟩ | ⟨hd1, hd2⟩
      · refine ⟨Or.inl ⟨e1.mpr hd1, e4.mpr hd2⟩, ?_⟩
        rw [byeFree]
        rw [show (w.getD (origIdx (w.length - 1) r i) noPlayer,
            w.getD (origIdx (w.length - 1) r (w.length - 1 - i)) noPlayer).1
          = w.getD (origIdx (w.length - 1) r i) noPlayer from rfl,
          e1.mpr hd1]
        rw [show (w.getD (origIdx (w.length - 1) r i) noPlayer,
            w.getD (origIdx (w.length - 1) r (w.length - 1 - i)) noPlayer).2
          = w.getD (origIdx (w.length - 1) r (w.length - 1 - i)) noPlayer
          from rfl, e4.mpr hd2]
        exact ⟨hba, hbb⟩
      · refine ⟨Or.inr ⟨e2.mpr hd1, e3.mpr hd2⟩, ?_⟩
        rw [byeFree]
        rw [show (w.getD (origIdx (w.length - 1) r i) noPlayer,
            w.getD (origIdx (w.length - 1) r (w.length - 1 - i)) noPlayer).1
          = w.getD (origIdx (w.length - 1) r i) noPlayer from rfl,
          e2.mpr hd1]
        rw [show (w.getD (origIdx (w.length - 1) r i) noPlayer,
            w.getD (origIdx (w.length - 1) r (w.length - 1 - i)) noPlayer).2
          = w.getD (origIdx (w.length - 1) r (w.length - 1 - i)) noPlayer
          from rfl, e3.mpr hd2]
        exact ⟨hbb, hba⟩
  by_cases hE : posIdx (w.length - 1) r ia + posIdx (w.length - 1) r ib
      = w.length - 1
  · rw [if_pos hE]
    refine countP_range_eq_one
      (show min (posIdx (w.length - 1) r ia) (posIdx (w.length - 1) r ib)
          < w.length / 2 by omega)
      ((hmain _ (by omega)).mpr ⟨hE, rfl⟩) ?_
    intro j hj hpj
    exact ((hmain j hj).mp hpj).2
  · rw [if_neg hE]
    apply countP_range_eq_zero
    intro j hj
    rcases hval : ((fun p => decide (p = (w.getD ia noPlayer, w.getD ib noPlayer)
          ∨ p = (w.getD ib noPlayer, w.getD ia noPlayer))
        && decide (byeFree p)) ∘ pairAt (rotateOnce^[r] w)) j
    · rfl
    · exact absurd ((hmain j hj).mp hval).1 hE

/-- Reading a rotated position against a fixed player: equality holds
exactly when the position is the player's current one. -/
theorem getD_orig_eq_iff (w : List String) (hnd : w.Nodup)
    (hm1 : 1 ≤ w.length - 1) (r j k : ℕ) (hj : j < w.length)
    (hk : k < w.length) :
    (w.getD (origIdx (w.length - 1) r j) noPlayer = w.getD k noPlayer)
      ↔ j = posIdx (w.length - 1) r k := by
  constructor
  · intro h
    exact (origIdx_eq_iff _ r j k hm1 (by omega) (by omega)).mp
      (getD_inj_of_nodup hnd
        (by have := origIdx_lt (w.length - 1) r j hm1; omega) hk h)
  · intro h
    rw [(origIdx_eq_iff _ r j k hm1 (by omega) (by omega)).mpr h]

/-- In a working list whose only `"BYE"` sits last, a valid position
holds `"BYE"` exactly when it is the last position. -/
theorem getD_eq_bye_iff (w : List String)
    (hblast : w.getD (w.length - 1) noPlayer = "BYE")
    (hbrest : ∀ j, j < w.length - 1 → w.getD j noPlayer ≠ "BYE")
    (j : ℕ) (hj : j < w.length) :
    (w.getD j noPlayer = "BYE") ↔ j = w.length - 1 := by
  constructor
  · intro h
    by_contra hne
    exact hbrest j (by omega) h
  · intro h
    rw [h, hblast]

/-- With the `"BYE"` placeholder last, a rotated position is `BYE`-free
exactly when it is not the placeholder's current position. -/
theorem getD_orig_ne_bye_iff (w : List String) (hm1 : 1 ≤ w.length - 1)
    (hblast : w.getD (w.length - 1) noPlayer = "BYE")
    (hbrest : ∀ j, j < w.length - 1 → w.getD j noPlayer ≠ "BYE")
    (r j : ℕ) (hj : j < w.length) :
    (w.getD (origIdx (w.length - 1) r j) noPlayer ≠ "BYE")
      ↔ j ≠ posIdx (w.length - 1) r (w.length - 1) := by
  apply not_congr
  have h1 := getD_eq_bye_iff w hblast hbrest (origIdx (w.length - 1) r j)
    (by have := origIdx_lt (w.length - 1) r j hm1; omega)
  rw [h1]
  exact origIdx_eq_iff _ r j (w.length - 1) hm1 (by omega) (by omega)

/-- In a single round of a `BYE`-free working list, the player at valid
index `ia` occurs in exactly one pairing. -/
theorem round_mem_count_nobye (w : List String) (h2 : 2 ≤ w.length)
    (he : w.length % 2 = 0) (hnd : w.Nodup) (hnb : "BYE" ∉ w) (ia : ℕ)
    (hia : ia < w.length) (r : ℕ) :
    (mkRound (rotateOnce^[r] w)).countP
        (fun p => decide (p.1 = w.getD ia noPlayer
          ∨ p.2 = w.getD ia noPlayer)) = 1 := by
  have hm1 : 1 ≤ w.length - 1 := by omega
  have hja := posIdx_lt (w.length - 1) r ia hm1
  rw [mkRound_eq_filter, List.countP_filter, List.countP_map,
    length_iterate_rotateOnce w h2]
  have hmain : ∀ i, i < w.length / 2 →
      (((fun p => decide (p.1 = w.getD ia noPlayer
            ∨ p.2 = w.getD ia noPlayer)
          && decide (byeFree p)) ∘ pairAt (rotateOnce^[r] w)) i = true
        ↔ (i = posIdx (w.length - 1) r ia
            ∨ w.length - 1 - i = posIdx (w.length - 1) r ia)) := by
    intro i hi
    have hin : i < w.length := by omega
    simp only [Function.comp_apply, Bool.and_eq_true, decide_eq_true_eq]
    rw [pairAt_iterate w h2 r i hin]
    have e1 := getD_orig_eq_iff w hnd hm1 r i ia hin hia
    have e3 := getD_orig_eq_iff w hnd hm1 r (w.length - 1 - i) ia
      (by omega) hia
    constructor
    · rintro ⟨hq, _⟩
      rcases hq with h | h
      · exact Or.inl (e1.mp h)
      · exact Or.inr (e3.mp h)
    · intro hq
      have hbfree : byeFree (w.getD (origIdx (w.length - 1) r i) noPlayer,
          w.getD (origIdx (w.length - 1) r (w.length - 1 - i)) noPlayer) := by
        constructor
        · intro hcon
          exact hnb (hcon ▸ getD_mem_of_lt
            (show origIdx (w.length - 1) r i < w.length by
              have := origIdx_lt (w.length - 1) r i hm1; omega))
        · intro hcon
          exact hnb (hcon ▸ getD_mem_of_lt
            (show origIdx (w.length - 1) r (w.length - 1 - i) < w.length by
              have := origIdx_lt (w.length - 1) r (w.length - 1 - i) hm1
              omega))
      rcases hq with h | h
      · exact ⟨Or.inl (e1.mpr h), hbfree⟩
      · exact ⟨Or.inr (e3.mpr h), hbfree⟩
  refine countP_range_eq_one
    (show min (posIdx (w.length - 1) r ia)
        (w.length - 1 - posIdx (w.length - 1) r ia) < w.length / 2 by omega)
    ((hmain _ (by omega)).mpr (by omega)) ?_
  intro j hj hpj
  have := (hmain j hj).mp hpj
  omega

/-- In a single round of a working list whose `"BYE"` placeholder sits
last, the real player at index `ia` occurs in exactly one pairing unless
its current position is complementary to the placeholder's, in which
case its pairing is dropped. -/
theorem round_mem_count_bye (w : List String) (h2 : 2 ≤ w.length)
    (he : w.length % 2 = 0) (hnd : w.Nodup)
    (hblast : w.getD (w.length - 1) noPlayer = "BYE")
    (hbrest : ∀ j, j < w.length - 1 → w.getD j noPlayer ≠ "BYE")
    (ia : ℕ) (hia : ia < w.length - 1) (r : ℕ) :
    (mkRound (rotateOnce^[r] w)).countP
        (fun p => decide (p.1 = w.getD ia noPlayer
          ∨ p.2 = w.getD ia noPlayer))
      = if posIdx (w.length - 1) r ia
            + posIdx (w.length - 1) r (w.length - 1) = w.length - 1
        then 0 else 1 := by
  have hm1 : 1 ≤ w.length - 1 := by omega
  have hja := posIdx_lt (w.length - 1) r ia hm1
  have hjy := posIdx_lt (w.length - 1) r (w.length - 1) hm1
  have hjay : posIdx (w.length - 1) r ia
      ≠ posIdx (w.length - 1) r (w.length - 1) :=
    fun h => absurd (posIdx_inj (w.length - 1) r hm1 (by omega) (by omega) h)
      (by omega)
  rw [mkRound_eq_filter, List.countP_filter, List.countP_map,
    length_iterate_rotateOnce w h2]
  have hmain : ∀ i, i < w.length / 2 →
      (((fun p => decide (p.1 = w.getD ia noPlayer
            ∨ p.2 = w.getD ia noPlayer)
          && decide (byeFree p)) ∘ pairAt (rotateOnce^[r] w)) i = true
        ↔ ((i = posIdx (w.length - 1) r ia
              ∨ w.length - 1 - i = posIdx (w.length - 1) r ia)
            ∧ i ≠ posIdx (w.length - 1) r (w.length - 1)
            ∧ w.length - 1 - i ≠ posIdx (w.length - 1) r (w.length - 1))) := by
    intro i hi
    have hin : i < w.length := by omega
    simp only [Function.comp_apply, Bool.and_eq_true, decide_eq_true_eq]
    rw [pairAt_iterate w h2 r i hin]
    have e1 := getD_orig_eq_iff w hnd hm1 r i ia hin (by omega)
    have e3 := getD_orig_eq_iff w hnd hm1 r (w.length - 1 - i) ia
      (by omega) (by omega)
    have b1 := getD_orig_ne_bye_iff w hm1 hblast hbrest r i hin
    have b3 := getD_orig_ne_bye_iff w hm1 hblast hbrest r (w.length - 1 - i)
      (by omega)
    rw [byeFree]
    constructor
    · rintro ⟨hq, hb, hb'⟩
      exact ⟨hq.imp e1.mp e3.mp, b1.mp hb, b3.mp hb'⟩
    · rintro ⟨hq, hy, hy'⟩
      exact ⟨hq.imp e1.mpr e3.mpr, b1.mpr hy, b3.mpr hy'⟩
  by_cases hEy : posIdx (w.length - 1) r ia
      + posIdx (w.length - 1) r (w.length - 1) = w.length - 1
  · rw [if_pos hEy]
    apply countP_range_eq_zero
    intro j hj
    rcases hval : ((fun p => decide (p.1 = w.getD ia noPlayer
          ∨ p.2 = w.getD ia noPlayer)
        && decide (byeFree p)) ∘ pairAt (rotateOnce^[r] w)) j
    · exact hval
    · have := (hmain j hj).mp hval
      omega
  · rw [if_neg hEy]
    refine countP_range_eq_one
      (show min (posIdx (w.length - 1) r ia)
          (w.length - 1 - posIdx (w.length - 1) r ia) < w.length / 2 by omega)
      ((hmain _ (by omega)).mpr (by omega)) ?_
    intro j hj hpj
    have := (hmain j hj).mp hpj
    omega

/-- A round of a `BYE`-free working list keeps all `n / 2` pairings. -/
theorem round_len_nobye (w : List String) (h2 : 2 ≤ w.length)
    (he : w.length % 2 = 0) (hnb : "BYE" ∉ w) (r : ℕ) :
    (mkRound (rotateOnce^[r] w)).length = w.length / 2 := by
  rw [mkRound_eq_filter, ← List.countP_eq_length_filter, List.countP_map,
    length_iterate_rotateOnce w h2]
  have hall : List.countP
      ((fun p => decide (byeFree p)) ∘ pairAt (rotateOnce^[r] w))
      (List.range (w.length / 2))
      = (List.range (w.length / 2)).length := by
    rw [List.countP_eq_length]
    intro i hi
    rw [List.mem_range] at hi
    have hm1 : 1 ≤ w.length - 1 := by omega
    simp only [Function.comp_apply, decide_eq_true_eq]
    rw [pairAt_iterate w h2 r i (by omega), byeFree]
    constructor
    · intro hcon
      exact hnb (hcon ▸ getD_mem_of_lt
        (show origIdx (w.length - 1) r i < w.length by
          have := origIdx_lt (w.length - 1) r i hm1; omega))
    · intro hcon
      exact hnb (hcon ▸ getD_mem_of_lt
        (show origIdx (w.length - 1) r (w.length - 1 - i) < w.length by
          have := origIdx_lt (w.length - 1) r (w.length - 1 - i) hm1; omega))
  rw [hall, List.length_range]

/-- A round of a working list with the `"BYE"` placeholder last drops
exactly the placeholder's pairing, keeping `n / 2 - 1`. -/
theorem round_len_bye (w : List String) (h2 : 2 ≤ w.length)
    (he : w.length % 2 = 0) (hnd : w.Nodup)
    (hblast : w.getD (w.length - 1) noPlayer = "BYE")
    (hbrest : ∀ j, j < w.length - 1 → w.getD j noPlayer ≠ "BYE")
    (r : ℕ) :
    (mkRound (rotateOnce^[r] w)).length = w.length / 2 - 1 := by
  have hm1 : 1 ≤ w.length - 1 := by omega
  have hjy := posIdx_lt (w.length - 1) r (w.length - 1) hm1
  have hjy1 : 1 ≤ posIdx (w.length - 1) r (w.length - 1) := by
    rw [posIdx, if_neg (by omega)]
    omega
  rw [mkRound_eq_filter, ← List.countP_eq_length_filter, List.countP_map]
  have hnot : (List.range ((rotateOnce^[r] w).length / 2)).countP
      (fun i => !(((fun p => decide (byeFree p))
        ∘ pairAt (rotateOnce^[r] w)) i)) = 1 := by
    rw [length_iterate_rotateOnce w h2]
    have hmain : ∀ i, i < w.length / 2 →
        ((!(((fun p => decide (byeFree p)) ∘ pairAt (rotateOnce^[r] w)) i))
            = true
          ↔ i = min (posIdx (w.length - 1) r (w.length - 1))
              (w.length - 1 - posIdx (w.length - 1) r (w.length - 1))) := by
      intro i hi
      have hin : i < w.length := by omega
      simp only [Function.comp_apply, Bool.not_eq_true',
        decide_eq_false_iff_not]
      rw [pairAt_iterate w h2 r i hin, byeFree, not_and_or, not_not, not_not]
      have b1 : (w.getD (origIdx (w.length - 1) r i) noPlayer = "BYE")
          ↔ i = posIdx (w.length - 1) r (w.length - 1) := by
        rw [getD_eq_bye_iff w hblast hbrest (origIdx (w.length - 1) r i)
          (by have := origIdx_lt (w.length - 1) r i hm1; omega)]
        exact origIdx_eq_iff _ r i (w.length - 1) hm1 (by omega) (by omega)
      have b3 : (w.getD (origIdx (w.length - 1) r (w.length - 1 - i)) noPlayer
            = "BYE")
          ↔ w.length - 1 - i = posIdx (w.length - 1) r (w.length - 1) := by
        rw [getD_eq_bye_iff w hblast hbrest
          (origIdx (w.length - 1) r (w.length - 1 - i))
          (by have := origIdx_lt (w.length - 1) r (w.length - 1 - i) hm1
              omega)]
        exact origIdx_eq_iff _ r (w.length - 1 - i) (w.length - 1) hm1
          (by omega) (by omega)
      rw [b1, b3]
      omega
    refine countP_range_eq_one
      (show min (posIdx (w.length - 1) r (w.length - 1))
          (w.length - 1 - posIdx (w.length - 1) r (w.length - 1))
          < w.length / 2 by omega)
      ((hmain _ (by omega)).mpr rfl) ?_
    intro j hj hpj
    exact (hmain j hj).mp hpj
  have hsplit := countP_add_countP_not
    ((fun p => decide (byeFree p)) ∘ pairAt (rotateOnce^[r] w))
    (List.range ((rotateOnce^[r] w).length / 2))
  rw [hnot, List.length_range, length_iterate_rotateOnce w h2] at hsplit
  rw [length_iterate_rotateOnce w h2]
  omega

/-- Across the whole schedule of an even duplicate-free working list,
the unordered pair of two distinct non-`BYE` players occurs in exactly
one pairing. -/
theorem flatten_countP_pair (w : List String) (h2 : 2 ≤ w.length)
    (he : w.length % 2 = 0) (hnd : w.Nodup) (ia ib : ℕ)
    (hia : ia < w.length) (hib : ib < w.length) (hne : ia ≠ ib)
    (hba : w.getD ia noPlayer ≠ "BYE") (hbb : w.getD ib noPlayer ≠ "BYE") :
    ((scheduleAux (w.length - 1) w).flatten).countP
        (fun p => decide (p = (w.getD ia noPlayer, w.getD ib noPlayer)
          ∨ p = (w.getD ib noPlayer, w.getD ia noPlayer))) = 1 := by
  rw [scheduleAux_eq_map, List.countP_flatten, List.map_map]
  obtain ⟨r0, hr0, hE0, huniq⟩ := exists_unique_pair_round (w.length - 1) ia ib
    (by omega) (by omega) (by omega) hne
  apply sum_map_range_eq_one _ _ r0 hr0
  · simp only [Function.comp_apply]
    rw [round_pair_count w h2 he hnd ia ib hia hib hne hba hbb r0, if_pos hE0]
  · intro r hr hner
    simp only [Function.comp_apply]
    rw [round_pair_count w h2 he hnd ia ib hia hib hne hba hbb r,
      if_neg (fun hE => hner (huniq r hr hE))]

/-- No pairing in the schedule of an even duplicate-free working list
pairs a position with itself. -/
theorem flatten_no_self (w : List String) (h2 : 2 ≤ w.length)
    (he : w.length % 2 = 0) (hnd : w.Nodup) :
    ∀ p ∈ (scheduleAux (w.length - 1) w).flatten, p.1 ≠ p.2 := by
  intro p hp
  rw [scheduleAux_eq_map, List.mem_flatten] at hp
  obtain ⟨l, hl, hpl⟩ := hp
  rw [List.mem_map] at hl
  obtain ⟨r, _, rfl⟩ := hl
  rw [mkRound_eq_filter, List.mem_filter] at hpl
  obtain ⟨hpm, _⟩ := hpl
  rw [List.mem_map] at hpm
  obtain ⟨i, hi, rfl⟩ := hpm
  rw [List.mem_range, length_iterate_rotateOnce w h2] at hi
  have hm1 : 1 ≤ w.length - 1 := by omega
  rw [pairAt_iterate w h2 r i (by omega)]
  intro hcontra
  have hb1 := origIdx_lt (w.length - 1) r i hm1
  have hb2 := origIdx_lt (w.length - 1) r (w.length - 1 - i) hm1
  have h1 := getD_inj_of_nodup hnd (by omega) (by omega) hcontra
  have h2' := congrArg (posIdx (w.length - 1) r) h1
  rw [posIdx_origIdx _ r i hm1 (by omega),
    posIdx_origIdx _ r (w.length - 1 - i) hm1 (by omega)] at h2'
  omega

/-- Across the whole schedule of an even duplicate-free `BYE`-free
working list, every player occurs in exactly `n - 1` pairings. -/
theorem flatten_mem_count_nobye (w : List String) (h2 : 2 ≤ w.length)
    (he : w.length % 2 = 0) (hnd : w.Nodup) (hnb : "BYE" ∉ w) (ia : ℕ)
    (hia : ia < w.length) :
    ((scheduleAux (w.length - 1) w).flatten).countP
        (fun p => decide (p.1 = w.getD ia noPlayer
          ∨ p.2 = w.getD ia noPlayer)) = w.length - 1 := by
  rw [scheduleAux_eq_map, List.countP_flatten, List.map_map]
  rw [sum_map_range_const _ 1 (w.length - 1) (fun r hr => by
    simp only [Function.comp_apply]
    exact round_mem_count_nobye w h2 he hnd hnb ia hia r)]
  omega

/-- Across the whole schedule of an even duplicate-free working list
with the `"BYE"` placeholder last, every real player occurs in exactly
`n - 2` pairings (one raw pairing per round, minus the single round in
which it met the placeholder). -/
theorem flatten_mem_count_bye (w : List String) (h2 : 2 ≤ w.length)
    (he : w.length % 2 = 0) (hnd : w.Nodup)
    (hblast : w.getD (w.length - 1) noPlayer = "BYE")
    (hbrest : ∀ j, j < w.length - 1 → w.getD j noPlayer ≠ "BYE")
    (ia : ℕ) (hia : ia < w.length - 1) :
    ((scheduleAux (w.length - 1) w).flatten).countP
        (fun p => decide (p.1 = w.getD ia noPlayer
          ∨ p.2 = w.getD ia noPlayer)) = w.length - 1 - 1 := by
  rw [scheduleAux_eq_map, List.countP_flatten, List.map_map]
  obtain ⟨r0, hr0, hE0, huniq⟩ := exists_unique_pair_round (w.length - 1) ia
    (w.length - 1) (by omega) (by omega) (by omega) (by omega)
  apply sum_map_range_pred _ _ r0 hr0
  · simp only [Function.comp_apply]
    rw [round_mem_count_bye w h2 he hnd hblast hbrest ia hia r0, if_pos hE0]
  · intro r hr hner
    simp only [Function.comp_apply]
    rw [round_mem_count_bye w h2 he hnd hblast hbrest ia hia r,
      if_neg (fun hE => hner (huniq r hr hE))]

/-- Total pairing count of the schedule of a `BYE`-free working list. -/
theorem flatten_len_nobye (w : List String) (h2 : 2 ≤ w.length)
    (he : w.length % 2 = 0) (hnb : "BYE" ∉ w) :
    ((scheduleAux (w.length - 1) w).flatten).length
      = (w.length - 1) * (w.length / 2) := by
  rw [scheduleAux_eq_map, List.length_flatten, List.map_map]
  apply sum_map_range_const
  intro r hr
  simp only [Function.comp_apply]
  exact round_len_nobye w h2 he hnb r

/-- Total pairing count of the schedule of a working list with the
`"BYE"` placeholder last. -/
theorem flatten_len_bye (w : List String) (h2 : 2 ≤ w.length)
    (he : w.length % 2 = 0) (hnd : w.Nodup)
    (hblast : w.getD (w.length - 1) noPlayer = "BYE")
    (hbrest : ∀ j, j < w.length - 1 → w.getD j noPlayer ≠ "BYE") :
    ((scheduleAux (w.length - 1) w).flatten).length
      = (w.length - 1) * (w.length / 2 - 1) := by
  rw [scheduleAux_eq_map, List.length_flatten, List.map_map]
  apply sum_map_range_const
  intro r hr
  simp only [Function.comp_apply]
  exact round_len_bye w h2 he hnd hblast hbrest r

/-- C1 counterexample: the scheduler reserves the literal string
`"BYE"` as its placeholder and silently drops every pairing involving
it, so for the two distinct participant identifiers `["BYE", "P01"]` the
schedule contains 0 pairings instead of the claimed
`n·(n−1)/2 = 1`. -/
theorem c1_counterexample :
    (["BYE", "P01"] : List String).Nodup
    ∧ (["BYE", "P01"] : List String).length = 2
    ∧ (allPairings ["BYE", "P01"]).length = 0
    ∧ ¬ (allPairings ["BYE", "P01"]).length = 2 * (2 - 1) / 2 := by
  decide

/-- C1 (amended): for every list of `n ≥ 2` distinct participant
identifiers, none equal to the reserved placeholder string `"BYE"`, the
schedule returned by `create_schedule` contains exactly `n·(n−1)/2`
pairings in total, every unordered pair of distinct participants appears
in exactly one pairing across the whole schedule, no pairing pairs a
participant with itself, and every participant appears in exactly
`n − 1` pairings total. -/
theorem c1_amended_schedule_correct (ids : List String)
    (h2 : 2 ≤ ids.length) (hnd : ids.Nodup) (hbye : "BYE" ∉ ids) :
    (allPairings ids).length = ids.length * (ids.length - 1) / 2
    ∧ (∀ p ∈ allPairings ids, p.1 ≠ p.2)
    ∧ (∀ a ∈ ids, ∀ b ∈ ids, a ≠ b →
        (allPairings ids).countP
          (fun p => decide (p = (a, b) ∨ p = (b, a))) = 1)
    ∧ (∀ a ∈ ids, (allPairings ids).countP
        (fun p => decide (p.1 = a ∨ p.2 = a)) = ids.length - 1) := by
  by_cases hpar : ids.length % 2 = 1
  · -- odd participant count: the working list appends the placeholder
    have hw : allPairings ids
        = (scheduleAux ((ids ++ ["BYE"]).length - 1) (ids ++ ["BYE"])).flatten := by
      rw [allPairings, create_schedule, if_neg (by omega), if_pos hpar]
    set w := ids ++ ["BYE"] with hwdef
    have hlen : w.length = ids.length + 1 := by
      rw [hwdef, List.length_append, List.length_singleton]
    have h2w : 2 ≤ w.length := by omega
    have hew : w.length % 2 = 0 := by omega
    have hndw : w.Nodup := by
      rw [hwdef, List.nodup_append]
      exact ⟨hnd, List.nodup_singleton _,
        fun a ha hb => hbye ((List.mem_singleton.mp hb) ▸ ha)⟩
    have hblast : w.getD (w.length - 1) noPlayer = "BYE" := by
      rw [hlen, show ids.length + 1 - 1 = ids.length from by omega, hwdef,
        List.getD_append_right ids ["BYE"] noPlayer ids.length le_rfl,
        Nat.sub_self]
      rfl
    have hbrest : ∀ j, j < w.length - 1 → w.getD j noPlayer ≠ "BYE" := by
      intro j hj
      rw [hlen] at hj
      rw [hwdef, List.getD_append ids ["BYE"] noPlayer j (by omega)]
      intro hcon
      exact hbye (hcon ▸ getD_mem_of_lt (show j < ids.length by omega))
    have hidx : ∀ a ∈ ids, ∃ ia, ia < w.length - 1
        ∧ w.getD ia noPlayer = a := by
      intro a ha
      rw [List.mem_iff_getElem] at ha
      obtain ⟨i, hilt, hi⟩ := ha
      refine ⟨i, by omega, ?_⟩
      rw [hwdef, List.getD_append ids ["BYE"] noPlayer i hilt,
        List.getD_eq_getElem ids noPlayer hilt, hi]
    refine ⟨?_, ?_, ?_, ?_⟩
    · rw [hw, flatten_len_bye w h2w hew hndw hblast hbrest, hlen]
      obtain ⟨k, hk⟩ : ∃ k, ids.length = 2 * k + 1 := ⟨ids.length / 2, by omega⟩
      rw [hk, show 2 * k + 1 + 1 - 1 = 2 * k + 1 from by omega,
        show (2 * k + 1 + 1) / 2 - 1 = k from by omega,
        show 2 * k + 1 - 1 = 2 * k from by omega,
        show (2 * k + 1) * (2 * k) = 2 * ((2 * k + 1) * k) from by ring,
        Nat.mul_div_cancel_left _ (by norm_num)]
    · rw [hw]
      exact flatten_no_self w h2w hew hndw
    · intro a ha b hb hab
      obtain ⟨ia, hia, hga⟩ := hidx a ha
      obtain ⟨ib, hib, hgb⟩ := hidx b hb
      have hne : ia ≠ ib := fun h => hab (by rw [← hga, ← hgb, h])
      rw [hw, ← hga, ← hgb]
      exact flatten_countP_pair w h2w hew hndw ia ib (by omega) (by omega) hne
        (by rw [hga]; exact fun h => hbye (h ▸ ha))
        (by rw [hgb]; exact fun h => hbye (h ▸ hb))
    · intro a ha
      obtain ⟨ia, hia, hga⟩ := hidx a ha
      rw [hw, ← hga, flatten_mem_count_bye w h2w hew hndw hblast hbrest ia hia]
      omega
  · -- even participant count: the working list is the input itself
    have hpar' : ids.length % 2 = 0 := by omega
    have hw : allPairings ids = (scheduleAux (ids.length - 1) ids).flatten := by
      rw [allPairings, create_schedule, if_neg (by omega), if_neg hpar]
    have hidx : ∀ a ∈ ids, ∃ ia, ia < ids.length
        ∧ ids.getD ia noPlayer = a := by
      intro a ha
      rw [List.mem_iff_getElem] at ha
      obtain ⟨i, hilt, hi⟩ := ha
      exact ⟨i, hilt, by rw [List.getD_eq_getElem ids noPlayer hilt, hi]⟩
    refine ⟨?_, ?_, ?_, ?_⟩
    · rw [hw, flatten_len_nobye ids h2 hpar' hbye]
      obtain ⟨k, hk⟩ : ∃ k, ids.length = 2 * k := ⟨ids.length / 2, by omega⟩
      rw [hk, show 2 * k / 2 = k from by omega]
      have e3 : 2 * k * (2 * k - 1) = 2 * ((2 * k - 1) * k) := by
        generalize 2 * k - 1 = A
        ring
      rw [e3, Nat.mul_div_cancel_left _ (by norm_num)]
    · rw [hw]
      exact flatten_no_self ids h2 hpar' hnd
    · intro a ha b hb hab
      obtain ⟨ia, hia, hga⟩ := hidx a ha
      obtain ⟨ib, hib, hgb⟩ := hidx b hb
      have hne : ia ≠ ib := fun h => hab (by rw [← hga, ← hgb, h])
      rw [hw, ← hga, ← hgb]
      exact flatten_countP_pair ids h2 hpar' hnd ia ib hia hib hne
        (by rw [hga]; exact fun h => hbye (h ▸ ha))
        (by rw [hgb]; exact fun h => hbye (h ▸ hb))
    · intro a ha
      obtain ⟨ia, hia, hga⟩ := hidx a ha
      rw [hw, ← hga]
      exact flatten_mem_count_nobye ids h2 hpar' hnd hbye ia hia

/-- Witness for C1 (amended) on the four players of the specification's
`n = 4` example. -/
theorem c1_amended_schedule_correct_witness :
    (2 ≤ (["P01", "P02", "P03", "P04"] : List String).length)
    ∧ (["P01", "P02", "P03", "P04"] : List String).Nodup
    ∧ "BYE" ∉ (["P01", "P02", "P03", "P04"] : List String)
    ∧ ((allPairings ["P01", "P02", "P03", "P04"]).length
        = (["P01", "P02", "P03", "P04"] : List String).length
          * ((["P01", "P02", "P03", "P04"] : List String).length - 1) / 2
      ∧ (∀ p ∈ allPairings ["P01", "P02", "P03", "P04"], p.1 ≠ p.2)
      ∧ (∀ a ∈ (["P01", "P02", "P03", "P04"] : List String),
          ∀ b ∈ (["P01", "P02", "P03", "P04"] : List String), a ≠ b →
          (allPairings ["P01", "P02", "P03", "P04"]).countP
            (fun p => decide (p = (a, b) ∨ p = (b, a))) = 1)
      ∧ (∀ a ∈ (["P01", "P02", "P03", "P04"] : List String),
          (allPairings ["P01", "P02", "P03", "P04"]).countP
            (fun p => decide (p.1 = a ∨ p.2 = a))
          = (["P01", "P02", "P03", "P04"] : List String).length - 1)) :=
  ⟨by decide, by decide, by decide,
    c1_amended_schedule_correct ["P01", "P02", "P03", "P04"]
      (by decide) (by decide) (by decide)⟩

end MCP
